import Mathlib

/-!
Verification of the blocklist poller (`tempodb/blocklist/poller.go`).

The Go code is shallowly embedded as pure Lean functions.  The object store
(`backend.Reader` / `backend.Writer` / `backend.Compactor`) is modelled as a
record of response functions (`Store`); each retry attempt of a tenant poll may
observe a different store snapshot (`Env.store tenant attempt`), which models
transient store failures.  Goroutine fan-out in `Do` and `pollUnknown` is
modelled by the sequential linearization in program order; the iteration order
of the Go map `unknownBlockIDs` is unspecified in Go, and the embedding fixes
insertion order as the deterministic linearization.  Contexts, tracing spans,
logging and Prometheus metrics have no effect on the returned values and are
not modelled; `WriteTenantIndex` failures are only logged by the source and do
not influence any result, so the write is likewise not modelled.
-/

/-- Block identifiers are 128-bit UUIDs; only equality is used, so we model
them as naturals. -/
abbrev BlockID := Nat

/-- Errors are the Go error messages.  `errors.Join` of the single error kept
by the sequential linearization of `pollUnknown` is that error itself. -/
abbrev Err := String

/-- Result of a store read that distinguishes `backend.ErrDoesNotExist`
(matched via `errors.Is` in the source) from other failures. -/
inductive RRes (α : Type) where
  | ok (a : α)
  | notFound
  | fail (e : Err)
  deriving DecidableEq, Repr

/-- `backend.BlockMeta`, restricted to the fields the poller reads
(`BlockID`, `TotalObjects`, `Size_`). -/
structure BlockMeta where
  blockID : BlockID
  totalObjects : Int
  size : Nat
  deriving DecidableEq, Repr

/-- `backend.CompactedBlockMeta`: an embedded `BlockMeta` plus the
`CompactedTime` timestamp. -/
structure CompactedBlockMeta where
  blockMeta : BlockMeta
  compactedTime : Int
  deriving DecidableEq, Repr

/-- Field promotion of the embedded struct: `cm.BlockID` in Go. -/
def CompactedBlockMeta.blockID (cm : CompactedBlockMeta) : BlockID :=
  cm.blockMeta.blockID

/-- `backend.TenantIndex`: `CreatedAt`, `Meta`, `CompactedMeta`. -/
structure TenantIndex where
  createdAt : Int
  meta : List BlockMeta
  compactedMeta : List CompactedBlockMeta
  deriving DecidableEq, Repr

/-- One `backend.FindMatch` passed to the `Find` callback. -/
structure FindMatch where
  key : String
  modified : Int
  deriving DecidableEq, Repr

/-- The store facade: one snapshot of the object store as seen through
`backend.Reader` / `backend.Compactor` / `backend.Writer`.  `now` is the wall
clock against which `time.Since` is evaluated. -/
structure Store where
  now : Int
  blocks : String → Except Err (List BlockID × List BlockID)
  blockMeta : BlockID → String → RRes BlockMeta
  compactedBlockMeta : BlockID → String → RRes CompactedBlockMeta
  tenantIndex : String → RRes TenantIndex
  hasNoCompactFlag : BlockID → String → Except Err Bool
  find : String → Except Err (List FindMatch)
  delete : String → Option Err

/-- `PollerConfig`. -/
structure PollerConfig where
  pollConcurrency : Nat
  tenantPollConcurrency : Nat
  pollFallback : Bool
  tenantIndexBuilders : Int
  staleTenantIndex : Int
  pollJitterMs : Int
  tolerateConsecutiveErrors : Int
  tolerateTenantFailures : Int
  emptyTenantDeletionAge : Int
  emptyTenantDeletionEnabled : Bool
  skipNoCompactBlocks : Bool

/-- `blocklist.PerTenant`: map from tenant to live metas, as an association
list with last-writer-wins upsert. -/
abbrev PerTenant := List (String × List BlockMeta)

/-- `blocklist.PerTenantCompacted`. -/
abbrev PerTenantCompacted := List (String × List CompactedBlockMeta)

/-- Map update modelling Go's `m[k] = v`. -/
def alUpsert {β : Type} (m : List (String × β)) (k : String) (v : β) :
    List (String × β) :=
  if m.any (fun p => p.1 = k) then
    m.map (fun p => if p.1 = k then (k, v) else p)
  else
    m ++ [(k, v)]

/-- Map read modelling Go's `m[k]` where a missing key yields the zero value
(nil slice). -/
def alGet {β : Type} (m : List (String × β)) (k : String) (dflt : β) : β :=
  match m.find? (fun p => p.1 = k) with
  | some p => p.2
  | none => dflt

/-- Modelled from the spec: the Blocklist State component (§4.4; the type
`blocklist.List`, whose file is not part of the sources).  It exposes
`metas(tenant)` and `compacted_metas(tenant)`, returning the tenant's entry of
the current snapshot, or the empty list when the tenant has no entry. -/
structure Blocklist where
  metas : PerTenant
  compactedMetas : PerTenantCompacted

/-- `previous.Metas(tenantID)`. -/
def Blocklist.Metas (l : Blocklist) (tenantID : String) : List BlockMeta :=
  alGet l.metas tenantID []

/-- `previous.CompactedMetas(tenantID)`. -/
def Blocklist.CompactedMetas (l : Blocklist) (tenantID : String) :
    List CompactedBlockMeta :=
  alGet l.compactedMetas tenantID []

/-- Modelled from the spec: the atomic `apply(new_live, new_compacted)` of the
Blocklist State (§4.4), replacing the whole snapshot with the maps returned by
`Do`. -/
def applyPollResults (bl : PerTenant) (cbl : PerTenantCompacted) : Blocklist :=
  ⟨bl, cbl⟩

/-- The environment of one polling cycle: the tenants listing, and the store
snapshot observed by tenant `t`'s retry attempt `k`. -/
structure Env where
  tenants : Except Err (List String)
  store : String → Nat → Store

/-- `tenantIndexBuilder` (poller.go:512-521): probes
`Owns("build-tenant-index-" + i + "-" + tenant)` for `i < TenantIndexBuilders`.
The sharder is a pure predicate on job names. -/
def tenantIndexBuilder (cfg : PollerConfig) (sharder : String → Bool)
    (tenant : String) : Bool :=
  (List.range cfg.tenantIndexBuilders.toNat).any
    (fun i => sharder ("build-tenant-index-" ++ toString i ++ "-" ++ tenant))

/-- `tenantIndexPollError` (poller.go:523-533). -/
def tenantIndexPollError (cfg : PollerConfig) (s : Store)
    (r : RRes TenantIndex) : Except Err TenantIndex :=
  match r with
  | .ok idx =>
      if cfg.staleTenantIndex ≠ 0 ∧ s.now - idx.createdAt > cfg.staleTenantIndex then
        .error ("tenant index created at " ++ toString idx.createdAt ++ " is stale")
      else
        .ok idx
  | .notFound => .error "does not exist"
  | .fail e => .error e

/-- The meta-read phase of `pollBlock` (poller.go:489-508): read the live meta
unless the id was listed as compacted; on `ErrDoesNotExist` (or when listed as
compacted) fall through to the compacted meta; a second `ErrDoesNotExist`
drops the block silently. -/
def pollBlockReads (s : Store) (tenantID : String) (blockID : BlockID)
    (compacted : Bool) :
    Except Err (Option BlockMeta × Option CompactedBlockMeta) :=
  if compacted then
    match s.compactedBlockMeta blockID tenantID with
    | .ok cm => .ok (none, some cm)
    | .notFound => .ok (none, none)
    | .fail e => .error e
  else
    match s.blockMeta blockID tenantID with
    | .ok m => .ok (some m, none)
    | .fail e => .error e
    | .notFound =>
        match s.compactedBlockMeta blockID tenantID with
        | .ok cm => .ok (none, some cm)
        | .notFound => .ok (none, none)
        | .fail e => .error e

/-- `pollBlock` (poller.go:464-509).  The `PollJitterMs` sleep only delays the
reads and is not modelled. -/
def pollBlock (cfg : PollerConfig) (s : Store) (tenantID : String)
    (blockID : BlockID) (compacted : Bool) :
    Except Err (Option BlockMeta × Option CompactedBlockMeta) :=
  if ¬compacted ∧ cfg.skipNoCompactBlocks then
    match s.hasNoCompactFlag blockID tenantID with
    | .error e => .error ("failed to check nocompact flag: " ++ e)
    | .ok true => .ok (none, none)
    | .ok false => pollBlockReads s tenantID blockID compacted
  else
    pollBlockReads s tenantID blockID compacted

/-- The body of `pollUnknown`'s fan-out (poller.go:414-450), linearized in
list order: a live meta is appended to the first accumulator, else a compacted
meta to the second, else an error stops admission of further tasks
(the early-exit check on the shared error slice). -/
def pollUnknownGo (cfg : PollerConfig) (s : Store) (tenantID : String) :
    List (BlockID × Bool) → List BlockMeta → List CompactedBlockMeta →
    Except Err (List BlockMeta × List CompactedBlockMeta)
  | [], accM, accC => .ok (accM, accC)
  | (blockID, compacted) :: rest, accM, accC =>
      match pollBlock cfg s tenantID blockID compacted with
      | .error e => .error e
      | .ok (some m, _) => pollUnknownGo cfg s tenantID rest (accM ++ [m]) accC
      | .ok (none, some cm) => pollUnknownGo cfg s tenantID rest accM (accC ++ [cm])
      | .ok (none, none) => pollUnknownGo cfg s tenantID rest accM accC

/-- `pollUnknown` (poller.go:395-462). -/
def pollUnknown (cfg : PollerConfig) (s : Store)
    (unknownBlocks : List (BlockID × Bool)) (tenantID : String) :
    Except Err (List BlockMeta × List CompactedBlockMeta) :=
  pollUnknownGo cfg s tenantID unknownBlocks [] []

/-- Insertion into the Go map `unknownBlockIDs`: overwrite the value of an
existing key, otherwise append the new binding. -/
def mapInsert (u : List (BlockID × Bool)) (k : BlockID) (v : Bool) :
    List (BlockID × Bool) :=
  if u.any (fun p => p.1 = k) then
    u.map (fun p => if p.1 = k then (k, v) else p)
  else
    u ++ [(k, v)]

/-- Lookup in the Go map `mm` built by `for _, i := range metas
{ mm[i.BlockID] = i }`: the last meta with the given block id wins. -/
def mmFind (metas : List BlockMeta) (id : BlockID) : Option BlockMeta :=
  metas.reverse.find? (fun m => m.blockID = id)

/-- Lookup in the Go map `cm` of previous compacted metas. -/
def cmFind (metas : List CompactedBlockMeta) (id : BlockID) :
    Option CompactedBlockMeta :=
  metas.reverse.find? (fun m => m.blockID = id)

/-- One step of the loop over `currentBlockIDs` (poller.go:359-367): a known
id carries its previous meta forward, an unknown id is recorded with
`compacted = false`. -/
def liveStep (metas : List BlockMeta)
    (acc : List BlockMeta × List (BlockID × Bool)) (blockID : BlockID) :
    List BlockMeta × List (BlockID × Bool) :=
  match mmFind metas blockID with
  | some v => (acc.1 ++ [v], acc.2)
  | none => (acc.1, mapInsert acc.2 blockID false)

/-- One step of the loop over `currentCompactedBlockIDs` (poller.go:369-382). -/
def compactedStep (compactedMetas : List CompactedBlockMeta)
    (acc : List CompactedBlockMeta × List (BlockID × Bool)) (blockID : BlockID) :
    List CompactedBlockMeta × List (BlockID × Bool) :=
  match cmFind compactedMetas blockID with
  | some v => (acc.1 ++ [v], acc.2)
  | none => (acc.1, mapInsert acc.2 blockID true)

/-- The loop over `currentBlockIDs` (poller.go:359-367): carried-forward live
metas and the unknown map after the live pass. -/
def livePass (metas : List BlockMeta) (currentBlockIDs : List BlockID) :
    List BlockMeta × List (BlockID × Bool) :=
  currentBlockIDs.foldl (liveStep metas) ([], [])

/-- The loop over `currentCompactedBlockIDs` (poller.go:369-382), continuing
on the unknown map left by the live pass. -/
def compactedPass (compactedMetas : List CompactedBlockMeta)
    (currentCompactedBlockIDs : List BlockID) (u : List (BlockID × Bool)) :
    List CompactedBlockMeta × List (BlockID × Bool) :=
  currentCompactedBlockIDs.foldl (compactedStep compactedMetas) ([], u)

/-- `pollTenantBlocks` (poller.go:324-393). -/
def pollTenantBlocks (cfg : PollerConfig) (s : Store) (previous : Blocklist)
    (tenantID : String) :
    Except Err (List BlockMeta × List CompactedBlockMeta) :=
  match s.blocks tenantID with
  | .error e => .error ("failed listing tenant blocks: " ++ e)
  | .ok (currentBlockIDs, currentCompactedBlockIDs) =>
      match
        pollUnknown cfg s
          (compactedPass (previous.CompactedMetas tenantID) currentCompactedBlockIDs
            (livePass (previous.Metas tenantID) currentBlockIDs).2).2
          tenantID with
      | .error e => .error ("failed reading unknown blocks: " ++ e)
      | .ok (newM, newCm) =>
          .ok ((livePass (previous.Metas tenantID) currentBlockIDs).1 ++ newM,
               (compactedPass (previous.CompactedMetas tenantID) currentCompactedBlockIDs
                 (livePass (previous.Metas tenantID) currentBlockIDs).2).1 ++ newCm)

/-- Deletion loop of `deleteTenant` (poller.go:579-586): returns the keys
successfully deleted (in order) and the first delete failure, which aborts
the loop. -/
def deleteObjects (s : Store) : List String → List String × Option Err
  | [] => ([], none)
  | key :: rest =>
      match s.delete key with
      | some e => ([], some e)
      | none =>
          let r := deleteObjects s rest
          (key :: r.1, r.2)

/-- `deleteTenant` (poller.go:536-589).  The `path.Split` of each object key
before `writer.Delete` is path bookkeeping inside the store facade; `delete`
is keyed by the full object key here.  The result is the list of deleted
object keys together with the returned error, if any. -/
def deleteTenant (cfg : PollerConfig) (s : Store) (tenantID : String) :
    List String × Option Err :=
  if ¬cfg.emptyTenantDeletionEnabled then ([], none)
  else if cfg.emptyTenantDeletionAge = 0 then
    ([], some "empty tenant deletion age must be greater than 0")
  else
    match s.find tenantID with
    | .error e => ([], some e)
    | .ok objs =>
        let foundObjects :=
          (objs.filter (fun o => s.now - o.modified > cfg.emptyTenantDeletionAge)).map
            (fun o => o.key)
        let recentObjects :=
          (objs.filter (fun o => ¬ s.now - o.modified > cfg.emptyTenantDeletionAge)).length
        if recentObjects > 0 then ([], none)
        else
          match s.tenantIndex tenantID with
          | .notFound => deleteObjects s foundObjects
          | _ => ([], none)

/-- The builder path of `pollTenantAndCreateIndex` (poller.go:295-321): poll
the tenant's blocks and, when both lists are empty, run the empty-tenant
reaper, whose error is fatal for the tenant.  The tenant-index write
(poller.go:306-310) only logs its error and never changes the result, so it
is not modelled. -/
def builderPath (cfg : PollerConfig) (s : Store) (previous : Blocklist)
    (tenantID : String) :
    Except Err (List BlockMeta × List CompactedBlockMeta) :=
  match pollTenantBlocks cfg s previous tenantID with
  | .error e => .error ("failed to poll tenant blocks: " ++ e)
  | .ok (blocklist, compactedBlocklist) =>
      if blocklist.length = 0 ∧ compactedBlocklist.length = 0 then
        match (deleteTenant cfg s tenantID).2 with
        | some e => .error ("failed to delete tenant: " ++ e)
        | none => .ok (blocklist, compactedBlocklist)
      else
        .ok (blocklist, compactedBlocklist)

/-- `pollTenantAndCreateIndex` (poller.go:257-322). -/
def pollTenantAndCreateIndex (cfg : PollerConfig) (sharder : String → Bool)
    (s : Store) (previous : Blocklist) (tenantID : String) :
    Except Err (List BlockMeta × List CompactedBlockMeta) :=
  if tenantIndexBuilder cfg sharder tenantID then
    builderPath cfg s previous tenantID
  else
    match tenantIndexPollError cfg s (s.tenantIndex tenantID) with
    | .ok idx => .ok (idx.meta, idx.compactedMeta)
    | .error e =>
        if ¬cfg.pollFallback then
          .error ("failed to pull tenant index and no fallback configured: " ++ e)
        else
          builderPath cfg s previous tenantID

/-- Number of attempts made by the retry loop (poller.go:202-209):
`TolerateConsecutiveErrors + 1` when nonnegative, otherwise none. -/
def attemptsFor (c : Int) : Nat :=
  if c < 0 then 0 else c.toNat + 1

/-- The retry loop `for consecutiveErrorsRemaining >= 0` (poller.go:196-209):
attempt `k` with `fuel` attempts remaining; with zero attempts the freshly
initialized empty lists are returned. -/
def retryPoll (f : Nat → Except Err (List BlockMeta × List CompactedBlockMeta)) :
    Nat → Nat → Except Err (List BlockMeta × List CompactedBlockMeta)
  | _, 0 => .ok ([], [])
  | k, fuel + 1 =>
      match f k with
      | .ok a => .ok a
      | .error e =>
          match fuel with
          | 0 => .error e
          | fuel2 + 1 => retryPoll f (k + 1) (fuel2 + 1)

/-- The result of one tenant's task inside `Do` (poller.go:186-241):
`pollTenantAndCreateIndex` under the retry loop, attempt `k` observing store
snapshot `env.store tenantID k`. -/
def tenantResult (cfg : PollerConfig) (sharder : String → Bool) (env : Env)
    (previous : Blocklist) (tenantID : String) :
    Except Err (List BlockMeta × List CompactedBlockMeta) :=
  retryPoll
    (fun k => pollTenantAndCreateIndex cfg sharder (env.store tenantID k) previous tenantID)
    0 (attemptsFor cfg.tolerateConsecutiveErrors)

/-- The per-tenant state update of `Do` (poller.go:180-241): skip every tenant
once the failure budget has gone negative (the `break`); on persistent failure
copy the previous snapshot's entries and decrement the budget; on success
publish the entries only when at least one list is nonempty. -/
def doStep (cfg : PollerConfig) (sharder : String → Bool) (env : Env)
    (previous : Blocklist)
    (st : PerTenant × PerTenantCompacted × Int) (tenantID : String) :
    PerTenant × PerTenantCompacted × Int :=
  if st.2.2 < 0 then st
  else
    match tenantResult cfg sharder env previous tenantID with
    | .error _ =>
        (alUpsert st.1 tenantID (previous.Metas tenantID),
         alUpsert st.2.1 tenantID (previous.CompactedMetas tenantID),
         st.2.2 - 1)
    | .ok (newBlockList, newCompactedBlockList) =>
        if newBlockList.length > 0 ∨ newCompactedBlockList.length > 0 then
          (alUpsert st.1 tenantID newBlockList,
           alUpsert st.2.1 tenantID newCompactedBlockList,
           st.2.2)
        else
          st

/-- `Do` (poller.go:140-255): list tenants, run every tenant task, and fail
the cycle (returning no maps) when the failure budget was exhausted. -/
def Do (cfg : PollerConfig) (sharder : String → Bool) (env : Env)
    (previous : Blocklist) : Except Err (PerTenant × PerTenantCompacted) :=
  match env.tenants with
  | .error e => .error e
  | .ok tenants =>
      let st := tenants.foldl (doStep cfg sharder env previous)
        ([], [], cfg.tolerateTenantFailures)
      if st.2.2 < 0 then
        .error "too many tenant failures; abandoning polling cycle"
      else
        .ok (st.1, st.2.1)

/-- Projection of a `pollBlock` result onto its live meta. -/
def resLive (r : Except Err (Option BlockMeta × Option CompactedBlockMeta)) :
    Option BlockMeta :=
  match r with
  | .ok p => p.1
  | .error _ => none

/-- Projection of a `pollBlock` result onto its compacted meta. -/
def resCompacted (r : Except Err (Option BlockMeta × Option CompactedBlockMeta)) :
    Option CompactedBlockMeta :=
  match r with
  | .ok p => p.2
  | .error _ => none

/-- Well-formedness of one tenant's entries: block ids are unique across the
live and compacted lists (spec §3, Invariant 1 for a published snapshot). -/
def pairWF (l : List BlockMeta) (c : List CompactedBlockMeta) : Prop :=
  ((l.map BlockMeta.blockID) ++ (c.map CompactedBlockMeta.blockID)).Nodup

/-- Well-formedness of a store snapshot for one tenant: the block listing is
duplicate-free with disjoint live/compacted classifications, meta reads
return the meta of the requested block, and a readable tenant index satisfies
the published-snapshot invariant. -/
structure StoreWF (s : Store) (tenantID : String) : Prop where
  blocksNodup : ∀ L C, s.blocks tenantID = .ok (L, C) →
    L.Nodup ∧ C.Nodup ∧ ∀ id ∈ L, id ∉ C
  liveMetaID : ∀ id m, s.blockMeta id tenantID = .ok m → m.blockID = id
  compMetaID : ∀ id cm, s.compactedBlockMeta id tenantID = .ok cm →
    cm.blockID = id
  indexWF : ∀ idx, s.tenantIndex tenantID = .ok idx →
    pairWF idx.meta idx.compactedMeta

/-! ### Concrete instances used by witnesses and counterexamples -/

/-- A live meta for block 1. -/
def wMetaA : BlockMeta := ⟨1, 0, 0⟩

/-- A compacted meta for block 1. -/
def wCMetaA : CompactedBlockMeta := ⟨⟨1, 0, 0⟩, 5⟩

/-- A live meta for block 2. -/
def wMetaB : BlockMeta := ⟨2, 0, 0⟩

/-- A store that lists block 1 both as live and as compacted. -/
def wStoreBoth : Store where
  now := 100
  blocks := fun _ => .ok ([1], [1])
  blockMeta := fun id _ => .ok ⟨id, 0, 0⟩
  compactedBlockMeta := fun id _ => .ok ⟨⟨id, 0, 0⟩, 5⟩
  tenantIndex := fun _ => .notFound
  hasNoCompactFlag := fun _ _ => .ok false
  find := fun _ => .ok []
  delete := fun _ => none

/-- A store with two live blocks and no compacted blocks. -/
def wStoreTwo : Store where
  now := 100
  blocks := fun _ => .ok ([1, 2], [])
  blockMeta := fun id _ => .ok ⟨id, 0, 0⟩
  compactedBlockMeta := fun _ _ => .notFound
  tenantIndex := fun _ => .notFound
  hasNoCompactFlag := fun _ _ => .ok false
  find := fun _ => .ok []
  delete := fun _ => none

/-- A store whose block listing always fails. -/
def wStoreFail : Store where
  now := 100
  blocks := fun _ => .error "listing failed"
  blockMeta := fun _ _ => .notFound
  compactedBlockMeta := fun _ _ => .notFound
  tenantIndex := fun _ => .notFound
  hasNoCompactFlag := fun _ _ => .ok false
  find := fun _ => .ok []
  delete := fun _ => none

/-- A store with no blocks at all. -/
def wStoreEmpty : Store where
  now := 100
  blocks := fun _ => .ok ([], [])
  blockMeta := fun _ _ => .notFound
  compactedBlockMeta := fun _ _ => .notFound
  tenantIndex := fun _ => .notFound
  hasNoCompactFlag := fun _ _ => .ok false
  find := fun _ => .ok []
  delete := fun _ => none

/-- Base configuration: one builder slot, no fallback, no retries, no failure
budget, reaping disabled. -/
def wCfg : PollerConfig := ⟨1, 1, false, 1, 0, 0, 0, 0, 0, false, false⟩

/-- Configuration with a failure budget of one. -/
def wCfgBudget1 : PollerConfig := ⟨1, 1, false, 1, 0, 0, 0, 1, 0, false, false⟩

/-- A sharder that owns everything, making this instance the builder. -/
def wSharderAll : String → Bool := fun _ => true

/-- Environment over `wStoreBoth` with a single tenant. -/
def wEnvBoth : Env := ⟨.ok ["t"], fun _ _ => wStoreBoth⟩

/-- Environment over `wStoreTwo` with a single tenant. -/
def wEnvTwo : Env := ⟨.ok ["t"], fun _ _ => wStoreTwo⟩

/-- Environment over `wStoreEmpty` with a single tenant. -/
def wEnvEmpty : Env := ⟨.ok ["t"], fun _ _ => wStoreEmpty⟩

/-- Environment where tenant `bad` always fails and tenant `good` succeeds. -/
def wEnvMixed : Env :=
  ⟨.ok ["bad", "good"], fun t _ => if t = "bad" then wStoreFail else wStoreTwo⟩

/-- Previous snapshot holding the live meta of block 1 for tenant `t`. -/
def wPrevA : Blocklist := ⟨[("t", [wMetaA])], []⟩

/-- Previous snapshot holding the live meta of block 2 for tenant `t`. -/
def wPrevB : Blocklist := ⟨[("t", [wMetaB])], []⟩

/-- Previous snapshot holding an entry for tenant `bad`. -/
def wPrevBad : Blocklist := ⟨[("bad", [wMetaA])], [("bad", [wCMetaA])]⟩

/-- Configuration with zero tenant-index builder slots. -/
def wCfgNoBuilders : PollerConfig := ⟨1, 1, false, 0, 0, 0, 0, 0, 0, false, false⟩

def alFind {β : Type} : List (String × β) → String → Option β
  | [], _ => none
  | p :: rest, k => if p.1 = k then some p.2 else alFind rest k

def doStepNB (cfg : PollerConfig) (sharder : String → Bool) (env : Env)
    (previous : Blocklist)
    (st : PerTenant × PerTenantCompacted × Int) (tenantID : String) :
    PerTenant × PerTenantCompacted × Int :=
  match tenantResult cfg sharder env previous tenantID with
  | .error _ =>
      (alUpsert st.1 tenantID (previous.Metas tenantID),
       alUpsert st.2.1 tenantID (previous.CompactedMetas tenantID),
       st.2.2 - 1)
  | .ok (newBlockList, newCompactedBlockList) =>
      if newBlockList.length > 0 ∨ newCompactedBlockList.length > 0 then
        (alUpsert st.1 tenantID newBlockList,
         alUpsert st.2.1 tenantID newCompactedBlockList,
         st.2.2)
      else
        st

def tenantFails (cfg : PollerConfig) (sharder : String → Bool) (env : Env)
    (previous : Blocklist) (tenantID : String) : Bool :=
  match tenantResult cfg sharder env previous tenantID with
  | .error _ => true
  | .ok _ => false

def wPrevEmpty : Blocklist := ⟨[], []⟩

def wC4bl : PerTenant := [("bad", [wMetaA]), ("good", [wMetaA, wMetaB])]

def wC4cbl : PerTenantCompacted := [("bad", [wCMetaA]), ("good", [])]

def liveOf (cfg : PollerConfig) (s : Store) (tid : String)
    (p : BlockID × Bool) : Option BlockMeta :=
  match pollBlock cfg s tid p.1 p.2 with
  | .ok (some m, _) => some m
  | _ => none

def compOf (cfg : PollerConfig) (s : Store) (tid : String)
    (p : BlockID × Bool) : Option CompactedBlockMeta :=
  match pollBlock cfg s tid p.1 p.2 with
  | .ok (none, some cm) => some cm
  | _ => none

def blockOk (cfg : PollerConfig) (s : Store) (tid : String)
    (p : BlockID × Bool) : Bool :=
  match pollBlock cfg s tid p.1 p.2 with
  | .ok _ => true
  | .error _ => false

def alGetD {β : Type} (m : List (String × List β)) (k : String) : List β :=
  (alFind m k).getD []

-- unknown-map shape

def liveRes (cfg : PollerConfig) (s : Store) (tid : String)
    (metas : List BlockMeta) (id : BlockID) : Option BlockMeta :=
  match mmFind metas id with
  | some M => some M
  | none => liveOf cfg s tid (id, false)

def compResC (cfg : PollerConfig) (s : Store) (tid : String)
    (cms : List CompactedBlockMeta) (id : BlockID) :
    Option CompactedBlockMeta :=
  match cmFind cms id with
  | some M => some M
  | none => compOf cfg s tid (id, true)

def compResL (cfg : PollerConfig) (s : Store) (tid : String)
    (metas : List BlockMeta) (id : BlockID) : Option CompactedBlockMeta :=
  if (mmFind metas id).isSome then none else compOf cfg s tid (id, false)

/-! ### Helper lemmas -/

theorem find_of_nodup_ids {l : List BlockMeta} {B : BlockID} {M : BlockMeta}
    (hn : (l.map BlockMeta.blockID).Nodup) (hm : M ∈ l) (hid : M.blockID = B) :
    l.find? (fun m => m.blockID = B) = some M := by
  induction l with
  | nil => cases hm
  | cons h t ih =>
    simp only [List.map_cons, List.nodup_cons] at hn
    rcases List.mem_cons.mp hm with rfl | hmt
    · simp [List.find?, hid]
    · have hne : ¬ h.blockID = B := by
        intro hEq
        exact hn.1 (hEq ▸ hid ▸ List.mem_map_of_mem BlockMeta.blockID hmt)
      rw [List.find?]
      have hd : (decide (h.blockID = B)) = false := by
        simp [hne]
      rw [hd]
      exact ih hn.2 hmt

theorem mmFind_eq_of_mem {metas : List BlockMeta} {B : BlockID} {M : BlockMeta}
    (hn : (metas.map BlockMeta.blockID).Nodup) (hm : M ∈ metas)
    (hid : M.blockID = B) :
    mmFind metas B = some M := by
  unfold mmFind
  refine find_of_nodup_ids ?_ (List.mem_reverse.mpr hm) hid
  rw [List.map_reverse]
  exact List.nodup_reverse.mpr hn

theorem liveStep_some {metas : List BlockMeta} {b : BlockID} {v : BlockMeta}
    (h : mmFind metas b = some v) (acc : List BlockMeta)
    (u : List (BlockID × Bool)) :
    liveStep metas (acc, u) b = (acc ++ [v], u) := by
  simp [liveStep, h]

theorem liveStep_none {metas : List BlockMeta} {b : BlockID}
    (h : mmFind metas b = none) (acc : List BlockMeta)
    (u : List (BlockID × Bool)) :
    liveStep metas (acc, u) b = (acc, mapInsert u b false) := by
  simp [liveStep, h]

theorem compactedStep_some {cms : List CompactedBlockMeta} {b : BlockID}
    {v : CompactedBlockMeta} (h : cmFind cms b = some v)
    (acc : List CompactedBlockMeta) (u : List (BlockID × Bool)) :
    compactedStep cms (acc, u) b = (acc ++ [v], u) := by
  simp [compactedStep, h]

theorem compactedStep_none {cms : List CompactedBlockMeta} {b : BlockID}
    (h : cmFind cms b = none) (acc : List CompactedBlockMeta)
    (u : List (BlockID × Bool)) :
    compactedStep cms (acc, u) b = (acc, mapInsert u b true) := by
  simp [compactedStep, h]

theorem liveStep_fold_fst (metas : List BlockMeta) (L : List BlockID)
    (acc : List BlockMeta) (u : List (BlockID × Bool)) :
    (L.foldl (liveStep metas) (acc, u)).1 = acc ++ L.filterMap (mmFind metas) := by
  induction L generalizing acc u with
  | nil => simp
  | cons b rest ih =>
    rw [List.foldl_cons, List.filterMap_cons]
    cases h : mmFind metas b with
    | some v =>
      rw [liveStep_some h, ih]
      simp
    | none =>
      rw [liveStep_none h, ih]

theorem compactedStep_fold_fst (cms : List CompactedBlockMeta) (C : List BlockID)
    (acc : List CompactedBlockMeta) (u : List (BlockID × Bool)) :
    (C.foldl (compactedStep cms) (acc, u)).1 = acc ++ C.filterMap (cmFind cms) := by
  induction C generalizing acc u with
  | nil => simp
  | cons b rest ih =>
    rw [List.foldl_cons, List.filterMap_cons]
    cases h : cmFind cms b with
    | some v =>
      rw [compactedStep_some h, ih]
      simp
    | none =>
      rw [compactedStep_none h, ih]

theorem mem_mapInsert {u : List (BlockID × Bool)} {k id : BlockID} {v w : Bool}
    (h : (id, v) ∈ mapInsert u k w) : (id, v) ∈ u ∨ (id = k ∧ v = w) := by
  unfold mapInsert at h
  split at h
  · rcases List.mem_map.mp h with ⟨p, hp, heq⟩
    by_cases hpk : p.1 = k
    · rw [if_pos hpk] at heq
      injection heq with h1 h2
      exact Or.inr ⟨h1.symm, h2.symm⟩
    · rw [if_neg hpk] at heq
      exact Or.inl (heq ▸ hp)
  · rcases List.mem_append.mp h with h1 | h1
    · exact Or.inl h1
    · have h2 := List.mem_singleton.mp h1
      injection h2 with h3 h4
      exact Or.inr ⟨h3, h4⟩

theorem unknown_live_sound (metas : List BlockMeta) (L : List BlockID)
    (acc : List BlockMeta) (u : List (BlockID × Bool)) (id : BlockID)
    (h : (id, false) ∈ (L.foldl (liveStep metas) (acc, u)).2) :
    (id, false) ∈ u ∨ mmFind metas id = none := by
  induction L generalizing acc u with
  | nil => exact Or.inl h
  | cons b rest ih =>
    rw [List.foldl_cons] at h
    cases hb : mmFind metas b with
    | some v =>
      rw [liveStep_some hb] at h
      exact ih _ _ h
    | none =>
      rw [liveStep_none hb] at h
      rcases ih _ _ h with h1 | h1
      · rcases mem_mapInsert h1 with h2 | h2
        · exact Or.inl h2
        · exact Or.inr (h2.1 ▸ hb)
      · exact Or.inr h1

theorem unknown_comp_sound (cms : List CompactedBlockMeta) (C : List BlockID)
    (acc : List CompactedBlockMeta) (u : List (BlockID × Bool)) (id : BlockID)
    (v : Bool)
    (h : (id, v) ∈ (C.foldl (compactedStep cms) (acc, u)).2) :
    (id, v) ∈ u ∨ v = true := by
  induction C generalizing acc u with
  | nil => exact Or.inl h
  | cons b rest ih =>
    rw [List.foldl_cons] at h
    cases hb : cmFind cms b with
    | some w =>
      rw [compactedStep_some hb] at h
      exact ih _ _ h
    | none =>
      rw [compactedStep_none hb] at h
      rcases ih _ _ h with h1 | h1
      · rcases mem_mapInsert h1 with h2 | h2
        · exact Or.inl h2
        · exact Or.inr h2.2
      · exact Or.inr h1

theorem deleteObjects_ok (s : Store) (keys : List String)
    (h : ∀ k ∈ keys, s.delete k = none) :
    deleteObjects s keys = (keys, none) := by
  induction keys with
  | nil => rfl
  | cons k rest ih =>
    have hk : s.delete k = none := h k (List.mem_cons_self k rest)
    simp [deleteObjects, hk, ih (fun x hx => h x (List.mem_cons_of_mem k hx))]

theorem deleteObjects_fail (s : Store) (pre post : List String) (k : String)
    (e : Err) (hpre : ∀ x ∈ pre, s.delete x = none) (hk : s.delete k = some e) :
    deleteObjects s (pre ++ k :: post) = (pre, some e) := by
  induction pre with
  | nil => simp [deleteObjects, hk]
  | cons x rest ih =>
    have hx : s.delete x = none := hpre x (List.mem_cons_self x rest)
    simp [deleteObjects, hx, ih (fun y hy => hpre y (List.mem_cons_of_mem x hy))]

/-! ### Claim theorems -/

/-- C10: for every invocation of `pollBlock`, at most one of the two returned
metas is non-nil: the live meta is cleared (`blockMeta = nil`) before the
compacted read is attempted, so no result carries both a live and a compacted
meta. -/
theorem c10_pollBlock_at_most_one_meta (cfg : PollerConfig) (s : Store)
    (tenantID : String) (blockID : BlockID) (compacted : Bool) :
    resLive (pollBlock cfg s tenantID blockID compacted) = none ∨
      resCompacted (pollBlock cfg s tenantID blockID compacted) = none := by
  unfold pollBlock pollBlockReads
  split
  · cases s.hasNoCompactFlag blockID tenantID with
    | error e => simp [resLive]
    | ok b =>
      cases b
      · simp only []
        split
        · cases s.compactedBlockMeta blockID tenantID <;>
            simp [resLive, resCompacted]
        · cases s.blockMeta blockID tenantID <;> simp [resLive, resCompacted]
          cases s.compactedBlockMeta blockID tenantID <;>
            simp [resLive, resCompacted]
      · simp [resLive]
  · split
    · cases s.compactedBlockMeta blockID tenantID <;>
        simp [resLive, resCompacted]
    · cases s.blockMeta blockID tenantID <;> simp [resLive, resCompacted]
      cases s.compactedBlockMeta blockID tenantID <;>
        simp [resLive, resCompacted]

/-- C6: for a block listed as live whose live meta read returns DoesNotExist,
`pollBlock` behaves exactly as the compacted read dictates (the compacted read
is attempted); if that read -- or, for a block listed as compacted, the
compacted read itself -- returns DoesNotExist, `pollBlock` returns no meta and
no error; and any block whose poll returns no meta and no error contributes
nothing to `pollUnknown`, so the tenant's poll still succeeds. -/
theorem c6_does_not_exist_drops_silently (cfg : PollerConfig) (s : Store)
    (tenantID : String) (blockID : BlockID)
    (hgate : cfg.skipNoCompactBlocks = false ∨
      s.hasNoCompactFlag blockID tenantID = .ok false) :
    (s.blockMeta blockID tenantID = .notFound →
      pollBlock cfg s tenantID blockID false =
        (match s.compactedBlockMeta blockID tenantID with
         | .ok cm => .ok (none, some cm)
         | .notFound => .ok (none, none)
         | .fail e => .error e)) ∧
    (s.compactedBlockMeta blockID tenantID = .notFound →
      pollBlock cfg s tenantID blockID true = .ok (none, none)) ∧
    (∀ compacted pre post accM accC,
      pollBlock cfg s tenantID blockID compacted = .ok (none, none) →
      pollUnknownGo cfg s tenantID (pre ++ (blockID, compacted) :: post) accM accC =
        pollUnknownGo cfg s tenantID (pre ++ post) accM accC) := by
  refine ⟨?_, ?_, ?_⟩
  · intro hbm
    unfold pollBlock pollBlockReads
    rcases hgate with hg | hg
    · simp [hg, hbm]
    · simp [hg, hbm]
  · intro hcm
    unfold pollBlock pollBlockReads
    simp [hcm]
  · intro compacted pre post accM accC hdrop
    induction pre generalizing accM accC with
    | nil => simp [pollUnknownGo, hdrop]
    | cons p rest ih =>
      obtain ⟨pid, pcpt⟩ := p
      simp only [List.cons_append, pollUnknownGo]
      cases hpb : pollBlock cfg s tenantID pid pcpt with
      | error e => rfl
      | ok v =>
        obtain ⟨vm, vc⟩ := v
        cases vm <;> cases vc <;> simp [ih]

/-- C6 witness: with the gate passing and both meta reads of block 7 absent,
the block is dropped with no meta and no error. -/
theorem c6_witness : pollBlock wCfg wStoreTwo "t" 7 true = .ok (none, none) :=
  (c6_does_not_exist_drops_silently wCfg wStoreTwo "t" 7 (Or.inl rfl)).2.1 rfl

/-- C7: the empty-tenant reaper is the conditional chain of the claim: a no-op
when disabled; a configuration error (without consulting the store walk) when
the age is zero; a no-op when some object is newer than the threshold; a no-op
when the re-read tenant index returns anything other than DoesNotExist; and
otherwise it deletes exactly the objects older than the threshold, the first
delete failure aborting the reap with that error. -/
theorem c7_delete_tenant_chain (cfg : PollerConfig) (s : Store)
    (tenantID : String) :
    (cfg.emptyTenantDeletionEnabled = false →
      deleteTenant cfg s tenantID = ([], none)) ∧
    (cfg.emptyTenantDeletionEnabled = true → cfg.emptyTenantDeletionAge = 0 →
      deleteTenant cfg s tenantID =
        ([], some "empty tenant deletion age must be greater than 0")) ∧
    (∀ objs, cfg.emptyTenantDeletionEnabled = true →
      cfg.emptyTenantDeletionAge ≠ 0 →
      s.find tenantID = .ok objs →
      (∃ o ∈ objs, ¬ s.now - o.modified > cfg.emptyTenantDeletionAge) →
      deleteTenant cfg s tenantID = ([], none)) ∧
    (∀ objs, cfg.emptyTenantDeletionEnabled = true →
      cfg.emptyTenantDeletionAge ≠ 0 →
      s.find tenantID = .ok objs →
      (∀ o ∈ objs, s.now - o.modified > cfg.emptyTenantDeletionAge) →
      s.tenantIndex tenantID ≠ .notFound →
      deleteTenant cfg s tenantID = ([], none)) ∧
    (∀ objs, cfg.emptyTenantDeletionEnabled = true →
      cfg.emptyTenantDeletionAge ≠ 0 →
      s.find tenantID = .ok objs →
      (∀ o ∈ objs, s.now - o.modified > cfg.emptyTenantDeletionAge) →
      s.tenantIndex tenantID = .notFound →
      deleteTenant cfg s tenantID =
        deleteObjects s (objs.map (fun o => o.key)) ∧
      ((∀ o ∈ objs, s.delete o.key = none) →
        deleteTenant cfg s tenantID = (objs.map (fun o => o.key), none)) ∧
      (∀ pre bad post e, objs = pre ++ bad :: post →
        (∀ o ∈ pre, s.delete o.key = none) → s.delete bad.key = some e →
        deleteTenant cfg s tenantID = (pre.map (fun o => o.key), some e))) := by
  refine ⟨?_, ?_, ?_, ?_, ?_⟩
  · intro hdis
    unfold deleteTenant
    simp [hdis]
  · intro hen hage
    unfold deleteTenant
    simp [hen, hage]
  · intro objs hen hage hfind hex
    obtain ⟨o, ho, hrecent⟩ := hex
    unfold deleteTenant
    rw [if_neg (by simp [hen]), if_neg hage, hfind]
    dsimp only
    rw [if_pos]
    have hmem : o ∈ objs.filter
        (fun o => ¬ s.now - o.modified > cfg.emptyTenantDeletionAge) := by
      refine List.mem_filter.mpr ⟨ho, ?_⟩
      simp
      omega
    exact List.length_pos.mpr (List.ne_nil_of_mem hmem)
  · intro objs hen hage hfind hold hidx
    unfold deleteTenant
    rw [if_neg (by simp [hen]), if_neg hage, hfind]
    dsimp only
    have hfilt : objs.filter
        (fun o => ¬ s.now - o.modified > cfg.emptyTenantDeletionAge) = [] := by
      rw [List.filter_eq_nil_iff]
      intro o ho
      have h2 := hold o ho
      simp
      omega
    rw [if_neg (by rw [hfilt]; simp)]
    cases hti : s.tenantIndex tenantID with
    | ok i => rfl
    | notFound => exact absurd hti hidx
    | fail e => rfl
  · intro objs hen hage hfind hold hidx
    have hfilt0 : objs.filter
        (fun o => ¬ s.now - o.modified > cfg.emptyTenantDeletionAge) = [] := by
      rw [List.filter_eq_nil_iff]
      intro o ho
      have h2 := hold o ho
      simp
      omega
    have hfilt1 : objs.filter
        (fun o => s.now - o.modified > cfg.emptyTenantDeletionAge) = objs := by
      rw [List.filter_eq_self]
      intro o ho
      have h2 := hold o ho
      simp
      omega
    have hmain : deleteTenant cfg s tenantID =
        deleteObjects s (objs.map (fun o => o.key)) := by
      unfold deleteTenant
      rw [if_neg (by simp [hen]), if_neg hage, hfind]
      dsimp only
      rw [if_neg (by rw [hfilt0]; simp), hidx]
      dsimp only
      rw [hfilt1]
    refine ⟨hmain, ?_, ?_⟩
    · intro hok
      rw [hmain]
      refine deleteObjects_ok s _ ?_
      intro k hk
      obtain ⟨o, ho, rfl⟩ := List.mem_map.mp hk
      exact hok o ho
    · intro pre bad post e hsplit hpre hbad
      rw [hmain, hsplit]
      simp only [List.map_append, List.map_cons]
      refine deleteObjects_fail s _ _ _ _ ?_ hbad
      intro k hk
      obtain ⟨o, ho, rfl⟩ := List.mem_map.mp hk
      exact hpre o ho

/-- C7 witness: with empty-tenant deletion disabled the reaper is a no-op. -/
theorem c7_witness : deleteTenant wCfg wStoreTwo "t" = ([], none) :=
  (c7_delete_tenant_chain wCfg wStoreTwo "t").1 rfl

/-- C8: with zero (or negative) configured tenant-index builders,
`tenantIndexBuilder` is false, so the instance takes the follower path; with
poll fallback disabled and no readable tenant index the tenant then fails. -/
theorem c8_no_builders_tenant_fails (cfg : PollerConfig)
    (sharder : String → Bool) (s : Store) (previous : Blocklist)
    (tenantID : String)
    (hb : cfg.tenantIndexBuilders ≤ 0)
    (hf : cfg.pollFallback = false)
    (hidx : ∀ idx, s.tenantIndex tenantID ≠ RRes.ok idx) :
    tenantIndexBuilder cfg sharder tenantID = false ∧
      ∃ e, pollTenantAndCreateIndex cfg sharder s previous tenantID = .error e := by
  have hbuild : tenantIndexBuilder cfg sharder tenantID = false := by
    unfold tenantIndexBuilder
    have hz : cfg.tenantIndexBuilders.toNat = 0 := Int.toNat_of_nonpos hb
    simp [hz]
  refine ⟨hbuild, ?_⟩
  unfold pollTenantAndCreateIndex
  rw [hbuild]
  simp only [Bool.false_eq_true, if_false]
  cases hti : s.tenantIndex tenantID with
  | ok i => exact absurd hti (hidx i)
  | notFound => simp [tenantIndexPollError, hf]
  | fail e => simp [tenantIndexPollError, hf]

/-- C8 witness: zero builders, no fallback, index absent: the tenant fails. -/
theorem c8_witness : tenantIndexBuilder wCfgNoBuilders wSharderAll "t" = false ∧
    ∃ e, pollTenantAndCreateIndex wCfgNoBuilders wSharderAll wStoreTwo wPrevB "t" =
      .error e :=
  c8_no_builders_tenant_fails wCfgNoBuilders wSharderAll wStoreTwo wPrevB "t"
    (by decide) rfl (fun idx h => RRes.noConfusion h)

theorem pollBlock_congr (cfg : PollerConfig) (s s2 : Store) (tenantID : String)
    (id : BlockID) (cpt : Bool)
    (hcm : s2.compactedBlockMeta = s.compactedBlockMeta)
    (hfl : s2.hasNoCompactFlag = s.hasNoCompactFlag)
    (hbm : cpt = true ∨ s2.blockMeta id tenantID = s.blockMeta id tenantID) :
    pollBlock cfg s2 tenantID id cpt = pollBlock cfg s tenantID id cpt := by
  cases cpt with
  | true => simp [pollBlock, pollBlockReads, hcm, hfl]
  | false =>
    rcases hbm with h | h
    · cases h
    · simp [pollBlock, pollBlockReads, hcm, hfl, h]

theorem pollUnknownGo_congr (cfg : PollerConfig) (s s2 : Store)
    (tenantID : String) (u : List (BlockID × Bool))
    (hall : ∀ p ∈ u, pollBlock cfg s2 tenantID p.1 p.2 =
      pollBlock cfg s tenantID p.1 p.2) :
    ∀ accM accC, pollUnknownGo cfg s2 tenantID u accM accC =
      pollUnknownGo cfg s tenantID u accM accC := by
  induction u with
  | nil => intro accM accC; rfl
  | cons p rest ih =>
    intro accM accC
    obtain ⟨pid, pcpt⟩ := p
    have hp := hall (pid, pcpt) (List.mem_cons_self _ _)
    simp only [pollUnknownGo, hp]
    have ihr := ih (fun q hq => hall q (List.mem_cons_of_mem _ hq))
    cases pollBlock cfg s tenantID pid pcpt with
    | error e => rfl
    | ok v =>
      obtain ⟨vm, vc⟩ := v
      cases vm <;> cases vc <;> simp [ihr]

/-- C2: on the builder path, if the previous list holds meta `M` for block
`B` and `B` is still listed live, then the output live list contains that very
meta `M`, and the result does not depend on `read_block_meta` for `B` (any
store differing only in `blockMeta` at `B` yields the identical result). -/
theorem c2_known_meta_carried_forward (cfg : PollerConfig) (s s2 : Store)
    (previous : Blocklist) (tenantID : String) (B : BlockID) (M : BlockMeta)
    (L C : List BlockID)
    (hblocks : s.blocks tenantID = .ok (L, C))
    (hBL : B ∈ L)
    (hMmem : M ∈ previous.Metas tenantID)
    (hMid : M.blockID = B)
    (hnodup : ((previous.Metas tenantID).map BlockMeta.blockID).Nodup)
    (hb : s2.blocks = s.blocks)
    (hcm : s2.compactedBlockMeta = s.compactedBlockMeta)
    (hfl : s2.hasNoCompactFlag = s.hasNoCompactFlag)
    (hbm : ∀ id t, id ≠ B → s2.blockMeta id t = s.blockMeta id t) :
    (∀ l c, pollTenantBlocks cfg s previous tenantID = .ok (l, c) → M ∈ l) ∧
    pollTenantBlocks cfg s2 previous tenantID =
      pollTenantBlocks cfg s previous tenantID := by
  have hfind : mmFind (previous.Metas tenantID) B = some M :=
    mmFind_eq_of_mem hnodup hMmem hMid
  constructor
  · intro l c hres
    unfold pollTenantBlocks at hres
    rw [hblocks] at hres
    dsimp only at hres
    cases hpu : pollUnknown cfg s
        (compactedPass (previous.CompactedMetas tenantID) C
          (livePass (previous.Metas tenantID) L).2).2 tenantID with
    | error e => rw [hpu] at hres; cases hres
    | ok p =>
      rw [hpu] at hres
      obtain ⟨nm, nc⟩ := p
      injection hres with h1
      injection h1 with hl hc
      have hmem1 : M ∈ (livePass (previous.Metas tenantID) L).1 := by
        unfold livePass
        rw [liveStep_fold_fst]
        simp only [List.nil_append]
        exact List.mem_filterMap.mpr ⟨B, hBL, hfind⟩
      rw [← hl]
      exact List.mem_append_left _ hmem1
  · unfold pollTenantBlocks
    rw [hb, hblocks]
    dsimp only
    have hcong : ∀ p ∈ (compactedPass (previous.CompactedMetas tenantID) C
        (livePass (previous.Metas tenantID) L).2).2,
        pollBlock cfg s2 tenantID p.1 p.2 = pollBlock cfg s tenantID p.1 p.2 := by
      intro p hp
      obtain ⟨pid, pcpt⟩ := p
      cases pcpt with
      | true => exact pollBlock_congr cfg s s2 tenantID pid true hcm hfl (Or.inl rfl)
      | false =>
        have h1 : (pid, false) ∈ (livePass (previous.Metas tenantID) L).2 := by
          have := unknown_comp_sound (previous.CompactedMetas tenantID) C
            [] ((livePass (previous.Metas tenantID) L).2) pid false hp
          rcases this with h | h
          · exact h
          · cases h
        have h2 : mmFind (previous.Metas tenantID) pid = none := by
          have := unknown_live_sound (previous.Metas tenantID) L [] [] pid h1
          rcases this with h | h
          · cases h
          · exact h
        have hne : pid ≠ B := by
          intro hEq
          rw [hEq, hfind] at h2
          cases h2
        exact pollBlock_congr cfg s s2 tenantID pid false hcm hfl
          (Or.inr (hbm pid tenantID hne))
    rw [pollUnknown, pollUnknown, pollUnknownGo_congr cfg s s2 tenantID _ hcong]

/-- C2 witness: block 2's meta is carried forward from the previous list. -/
theorem c2_witness_t :
    (∀ l c, pollTenantBlocks wCfg wStoreTwo wPrevB "t" = .ok (l, c) → wMetaB ∈ l) ∧
    pollTenantBlocks wCfg wStoreTwo wPrevB "t" =
      pollTenantBlocks wCfg wStoreTwo wPrevB "t" :=
  c2_known_meta_carried_forward wCfg wStoreTwo wStoreTwo wPrevB "t" 2 wMetaB
    [1, 2] [] rfl (by decide) (by decide) rfl (by decide) rfl rfl rfl
    (fun _ _ _ => rfl)

theorem alFind_append {β : Type} (m1 m2 : List (String × β)) (k : String) :
    alFind (m1 ++ m2) k =
      match alFind m1 k with
      | some v => some v
      | none => alFind m2 k := by
  induction m1 with
  | nil => rfl
  | cons q rest ih =>
    by_cases h : q.1 = k
    · simp [alFind, h]
    · simp [alFind, h, ih]

theorem alFind_none_of_any_false {β : Type} {m : List (String × β)} {k : String}
    (h : m.any (fun p => p.1 = k) = false) : alFind m k = none := by
  induction m with
  | nil => rfl
  | cons q rest ih =>
    simp only [List.any_cons, Bool.or_eq_false_iff] at h
    have h1 : ¬ q.1 = k := by simpa using h.1
    simp [alFind, h1, ih h.2]

theorem alFind_some_of_any_true {β : Type} {m : List (String × β)} {k : String}
    (h : m.any (fun p => p.1 = k) = true) : ∃ v, alFind m k = some v := by
  induction m with
  | nil => simp at h
  | cons q rest ih =>
    by_cases h1 : q.1 = k
    · exact ⟨q.2, by simp [alFind, h1]⟩
    · simp only [List.any_cons, Bool.or_eq_true] at h
      rcases h with h2 | h2
      · simp [h1] at h2
      · rcases ih h2 with ⟨v, hv⟩
        exact ⟨v, by simp [alFind, h1, hv]⟩

theorem alFind_map_upd {β : Type} (m : List (String × β)) (k : String) (v : β)
    (k' : String) :
    alFind (m.map (fun p => if p.1 = k then (k, v) else p)) k' =
      if k' = k then (alFind m k).map (fun _ => v) else alFind m k' := by
  induction m with
  | nil =>
    by_cases h : k' = k <;> simp [alFind, h]
  | cons q rest ih =>
    simp only [List.map_cons]
    by_cases h1 : q.1 = k
    · by_cases h2 : k' = k
      · subst h2
        simp [alFind, h1, ih]
      · have h3 : ¬ k = k' := fun hc => h2 hc.symm
        simp [alFind, h1, h3, ih, h2]
    · by_cases h3 : q.1 = k'
      · have h2 : ¬ k' = k := fun hc => h1 (h3.trans hc)
        simp [alFind, h1, h3, h2]
      · simp [alFind, h1, h3, ih]

theorem alFind_upsert {β : Type} (m : List (String × β)) (k : String) (v : β)
    (k' : String) :
    alFind (alUpsert m k v) k' = if k' = k then some v else alFind m k' := by
  unfold alUpsert
  cases hany : m.any (fun p => p.1 = k) with
  | true =>
    rw [if_pos rfl, alFind_map_upd]
    by_cases h2 : k' = k
    · rcases alFind_some_of_any_true hany with ⟨w, hw⟩
      rw [if_pos h2, if_pos h2, hw]
      rfl
    · rw [if_neg h2, if_neg h2]
  | false =>
    rw [if_neg (by simp), alFind_append]
    by_cases h2 : k' = k
    · subst h2
      rw [alFind_none_of_any_false hany]
      simp [alFind]
    · have h3 : ¬ k = k' := fun hc => h2 hc.symm
      cases hf : alFind m k' with
      | some w => simp [hf, h2]
      | none => simp [hf, h2, alFind, h3]

theorem doStep_neg {cfg : PollerConfig} {sharder : String → Bool} {env : Env}
    {previous : Blocklist} {st : PerTenant × PerTenantCompacted × Int}
    {t : String} (h : st.2.2 < 0) :
    doStep cfg sharder env previous st t = st := by
  unfold doStep
  rw [if_pos h]

theorem foldl_doStep_neg {cfg : PollerConfig} {sharder : String → Bool}
    {env : Env} {previous : Blocklist}
    {st : PerTenant × PerTenantCompacted × Int} (ts : List String)
    (h : st.2.2 < 0) :
    ts.foldl (doStep cfg sharder env previous) st = st := by
  induction ts with
  | nil => rfl
  | cons t rest ih => rw [List.foldl_cons, doStep_neg h, ih]

theorem doStep_nonneg {cfg : PollerConfig} {sharder : String → Bool} {env : Env}
    {previous : Blocklist} {st : PerTenant × PerTenantCompacted × Int}
    {t : String} (h : 0 ≤ st.2.2) :
    doStep cfg sharder env previous st t = doStepNB cfg sharder env previous st t := by
  unfold doStep doStepNB
  rw [if_neg (by omega)]

theorem doStepNB_rem_le (cfg : PollerConfig) (sharder : String → Bool)
    (env : Env) (previous : Blocklist)
    (st : PerTenant × PerTenantCompacted × Int) (t : String) :
    (doStepNB cfg sharder env previous st t).2.2 ≤ st.2.2 := by
  unfold doStepNB
  cases tenantResult cfg sharder env previous t with
  | error e => simp
  | ok p =>
    obtain ⟨l, c⟩ := p
    dsimp only
    split
    · simp
    · exact le_refl _

theorem foldl_doStep_eq_NB {cfg : PollerConfig} {sharder : String → Bool}
    {env : Env} {previous : Blocklist} (ts : List String)
    (st : PerTenant × PerTenantCompacted × Int)
    (h : 0 ≤ (ts.foldl (doStep cfg sharder env previous) st).2.2) :
    ts.foldl (doStep cfg sharder env previous) st =
      ts.foldl (doStepNB cfg sharder env previous) st := by
  induction ts generalizing st with
  | nil => rfl
  | cons t rest ih =>
    by_cases hst : st.2.2 < 0
    · exfalso
      rw [foldl_doStep_neg (t :: rest) hst] at h
      omega
    · have hpos : 0 ≤ st.2.2 := by omega
      rw [List.foldl_cons, doStep_nonneg hpos] at h ⊢
      rw [ih _ h, List.foldl_cons]

theorem foldl_NB_rem (cfg : PollerConfig) (sharder : String → Bool) (env : Env)
    (previous : Blocklist) (ts : List String)
    (st : PerTenant × PerTenantCompacted × Int) :
    (ts.foldl (doStepNB cfg sharder env previous) st).2.2 =
      st.2.2 - (ts.filter (fun t => tenantFails cfg sharder env previous t)).length := by
  induction ts generalizing st with
  | nil => simp
  | cons t rest ih =>
    rw [List.foldl_cons, ih]
    cases hres : tenantResult cfg sharder env previous t with
    | error e =>
      have hf : tenantFails cfg sharder env previous t = true := by
        unfold tenantFails
        rw [hres]
      rw [List.filter_cons_of_pos (by simp [hf])]
      unfold doStepNB
      rw [hres]
      simp
      omega
    | ok p =>
      have hf : tenantFails cfg sharder env previous t = false := by
        unfold tenantFails
        rw [hres]
      rw [List.filter_cons_of_neg (by simp [hf])]
      unfold doStepNB
      rw [hres]
      obtain ⟨l, c⟩ := p
      dsimp only
      split
      · simp
      · rfl

theorem foldl_doStep_fail_neg {cfg : PollerConfig} {sharder : String → Bool}
    {env : Env} {previous : Blocklist} {T : String}
    (hfail : tenantFails cfg sharder env previous T = true) (ts : List String)
    (st : PerTenant × PerTenantCompacted × Int)
    (hT : T ∈ ts) (hst : st.2.2 ≤ 0) :
    (ts.foldl (doStep cfg sharder env previous) st).2.2 < 0 := by
  induction ts generalizing st with
  | nil => cases hT
  | cons t rest ih =>
    rw [List.foldl_cons]
    by_cases hneg : st.2.2 < 0
    · rw [doStep_neg hneg, foldl_doStep_neg rest hneg]
      exact hneg
    · have hz : st.2.2 = 0 := by omega
      rw [doStep_nonneg (by omega)]
      by_cases hTt : t = T
      · subst hTt
        unfold tenantFails at hfail
        unfold doStepNB
        cases hres : tenantResult cfg sharder env previous t with
        | error e =>
          have h2 : ((alUpsert st.1 t (previous.Metas t),
              alUpsert st.2.1 t (previous.CompactedMetas t),
              st.2.2 - 1) : PerTenant × PerTenantCompacted × Int).2.2 < 0 := by
            simp; omega
          rw [foldl_doStep_neg rest h2]
          exact h2
        | ok p => rw [hres] at hfail; cases hfail
      · have hTrest : T ∈ rest := by
          rcases List.mem_cons.mp hT with h | h
          · exact absurd h.symm hTt
          · exact h
        refine ih _ hTrest ?_
        calc (doStepNB cfg sharder env previous st t).2.2
            ≤ st.2.2 := doStepNB_rem_le cfg sharder env previous st t
          _ ≤ 0 := hst

theorem doStepNB_preserve {cfg : PollerConfig} {sharder : String → Bool}
    {env : Env} {previous : Blocklist}
    (st : PerTenant × PerTenantCompacted × Int) {t T : String} (hne : ¬ t = T) :
    alFind (doStepNB cfg sharder env previous st t).1 T = alFind st.1 T ∧
    alFind (doStepNB cfg sharder env previous st t).2.1 T = alFind st.2.1 T := by
  unfold doStepNB
  cases tenantResult cfg sharder env previous t with
  | error e =>
    constructor
    · rw [alFind_upsert]
      rw [if_neg (fun hc => hne hc.symm)]
    · rw [alFind_upsert]
      rw [if_neg (fun hc => hne hc.symm)]
  | ok p =>
    obtain ⟨l, c⟩ := p
    dsimp only
    split
    · constructor
      · rw [alFind_upsert, if_neg (fun hc => hne hc.symm)]
      · rw [alFind_upsert, if_neg (fun hc => hne hc.symm)]
    · exact ⟨rfl, rfl⟩

theorem foldNB_find_fail {cfg : PollerConfig} {sharder : String → Bool}
    {env : Env} {previous : Blocklist} {T : String}
    (hfail : tenantFails cfg sharder env previous T = true) (ts : List String)
    (st : PerTenant × PerTenantCompacted × Int)
    (hstart : T ∈ ts ∨
      (alFind st.1 T = some (previous.Metas T) ∧
       alFind st.2.1 T = some (previous.CompactedMetas T))) :
    alFind (ts.foldl (doStepNB cfg sharder env previous) st).1 T =
      some (previous.Metas T) ∧
    alFind (ts.foldl (doStepNB cfg sharder env previous) st).2.1 T =
      some (previous.CompactedMetas T) := by
  induction ts generalizing st with
  | nil =>
    rcases hstart with h | h
    · cases h
    · exact h
  | cons t rest ih =>
    rw [List.foldl_cons]
    by_cases hTt : t = T
    · subst hTt
      refine ih _ (Or.inr ?_)
      unfold tenantFails at hfail
      unfold doStepNB
      cases hres : tenantResult cfg sharder env previous t with
      | error e =>
        constructor
        · rw [alFind_upsert, if_pos rfl]
        · rw [alFind_upsert, if_pos rfl]
      | ok p => rw [hres] at hfail; cases hfail
    · rcases hstart with h | h
      · rcases List.mem_cons.mp h with h1 | h1
        · exact absurd h1.symm hTt
        · exact ih _ (Or.inl h1)
      · refine ih _ (Or.inr ?_)
        have hp := @doStepNB_preserve cfg sharder env previous st t T hTt
        rw [hp.1, hp.2]
        exact h

theorem foldNB_find_nowrite {cfg : PollerConfig} {sharder : String → Bool}
    {env : Env} {previous : Blocklist} {T : String}
    (hok : tenantResult cfg sharder env previous T = .ok ([], []))
    (ts : List String) (st : PerTenant × PerTenantCompacted × Int) :
    alFind (ts.foldl (doStepNB cfg sharder env previous) st).1 T =
      alFind st.1 T ∧
    alFind (ts.foldl (doStepNB cfg sharder env previous) st).2.1 T =
      alFind st.2.1 T := by
  induction ts generalizing st with
  | nil => exact ⟨rfl, rfl⟩
  | cons t rest ih =>
    rw [List.foldl_cons]
    by_cases hTt : t = T
    · subst hTt
      have hstep : doStepNB cfg sharder env previous st t = st := by
        unfold doStepNB
        rw [hok]
        simp
      rw [hstep]
      exact ih st
    · have hp := @doStepNB_preserve cfg sharder env previous st t T hTt
      have hr := ih (doStepNB cfg sharder env previous st t)
      rw [hr.1, hr.2, hp.1, hp.2]
      exact ⟨rfl, rfl⟩

theorem retryPoll_error (f : Nat → Except Err (List BlockMeta × List CompactedBlockMeta)) :
    ∀ fuel k, 1 ≤ fuel → (∀ j, j < fuel → ∃ e, f (k + j) = .error e) →
    ∃ e, retryPoll f k fuel = .error e := by
  intro fuel
  induction fuel with
  | zero => intro k h; omega
  | succ n ih =>
    intro k hge hall
    rcases hall 0 (by omega) with ⟨e, he⟩
    rw [Nat.add_zero] at he
    unfold retryPoll
    rw [he]
    cases n with
    | zero => exact ⟨e, rfl⟩
    | succ m =>
      have := ih (k + 1) (by omega) (fun j hj => by
        rcases hall (j + 1) (by omega) with ⟨e2, he2⟩
        exact ⟨e2, by rw [← he2]; ring_nf⟩)
      exact this

/-- C3: with a tenant-failure budget of zero, a tenant whose poll fails on
every one of its retry attempts makes the whole cycle return the synthesized
"too many tenant failures" error, publishing no maps. -/
theorem c3_budget_zero_fails (cfg : PollerConfig) (sharder : String → Bool)
    (env : Env) (previous : Blocklist) (ts : List String) (T : String)
    (hbudget : cfg.tolerateTenantFailures = 0)
    (hts : env.tenants = .ok ts)
    (hT : T ∈ ts)
    (hretries : 0 ≤ cfg.tolerateConsecutiveErrors)
    (hfail : ∀ k, k < attemptsFor cfg.tolerateConsecutiveErrors →
      ∃ e, pollTenantAndCreateIndex cfg sharder (env.store T k) previous T =
        .error e) :
    Do cfg sharder env previous =
      .error "too many tenant failures; abandoning polling cycle" := by
  have hfuel : 1 ≤ attemptsFor cfg.tolerateConsecutiveErrors := by
    unfold attemptsFor
    rw [if_neg (by omega)]
    omega
  have htf : tenantFails cfg sharder env previous T = true := by
    unfold tenantFails tenantResult
    rcases retryPoll_error _ _ 0 hfuel (fun j hj => by
      rcases hfail j hj with ⟨e, he⟩
      exact ⟨e, by rw [Nat.zero_add]; exact he⟩) with ⟨e, he⟩
    rw [he]
  unfold Do
  rw [hts]
  dsimp only
  rw [if_pos]
  exact foldl_doStep_fail_neg htf ts _ hT (by rw [hbudget])

/-- C4: in a cycle that succeeds overall, a tenant that failed all its retry
attempts gets exactly the previous snapshot's entries in both returned maps,
and the failure budget ends at its initial value minus one per failing tenant
(each failing tenant decrements it exactly once). -/
theorem c4_failed_tenant_uses_previous (cfg : PollerConfig)
    (sharder : String → Bool) (env : Env) (previous : Blocklist)
    (ts : List String) (T : String) (bl : PerTenant)
    (cbl : PerTenantCompacted)
    (hts : env.tenants = .ok ts)
    (hdo : Do cfg sharder env previous = .ok (bl, cbl))
    (hT : T ∈ ts)
    (hretries : 0 ≤ cfg.tolerateConsecutiveErrors)
    (hfail : ∀ k, k < attemptsFor cfg.tolerateConsecutiveErrors →
      ∃ e, pollTenantAndCreateIndex cfg sharder (env.store T k) previous T =
        .error e) :
    alFind bl T = some (previous.Metas T) ∧
    alFind cbl T = some (previous.CompactedMetas T) ∧
    (ts.foldl (doStep cfg sharder env previous)
        ([], [], cfg.tolerateTenantFailures)).2.2 =
      cfg.tolerateTenantFailures -
        ((ts.filter (fun t => tenantFails cfg sharder env previous t)).length : Int) := by
  have hfuel : 1 ≤ attemptsFor cfg.tolerateConsecutiveErrors := by
    unfold attemptsFor
    rw [if_neg (by omega)]
    omega
  have htf : tenantFails cfg sharder env previous T = true := by
    unfold tenantFails tenantResult
    rcases retryPoll_error _ _ 0 hfuel (fun j hj => by
      rcases hfail j hj with ⟨e, he⟩
      exact ⟨e, by rw [Nat.zero_add]; exact he⟩) with ⟨e, he⟩
    rw [he]
  unfold Do at hdo
  rw [hts] at hdo
  dsimp only at hdo
  split at hdo
  · cases hdo
  · rename_i hrem
    injection hdo with hpair
    injection hpair with hbl hrest
    have hnn : 0 ≤ (ts.foldl (doStep cfg sharder env previous)
        ([], [], cfg.tolerateTenantFailures)).2.2 := by omega
    have hNB := foldl_doStep_eq_NB ts ([], [], cfg.tolerateTenantFailures) hnn
    have hentry := foldNB_find_fail htf ts ([], [], cfg.tolerateTenantFailures)
      (Or.inl hT)
    refine ⟨?_, ?_, ?_⟩
    · rw [← hbl, hNB]
      exact hentry.1
    · have hcbl : cbl = (ts.foldl (doStep cfg sharder env previous)
          ([], [], cfg.tolerateTenantFailures)).2.1 := by
        rw [← hrest]
      rw [hcbl, hNB]
      exact hentry.2
    · rw [hNB, foldl_NB_rem]

/-- C9: a tenant whose poll succeeds with zero live and zero compacted metas
(the reaper raising no error) gets no entry at all in the returned maps. -/
theorem c9_empty_success_no_entry (cfg : PollerConfig)
    (sharder : String → Bool) (env : Env) (previous : Blocklist)
    (bl : PerTenant) (cbl : PerTenantCompacted) (T : String)
    (hdo : Do cfg sharder env previous = .ok (bl, cbl))
    (hok : tenantResult cfg sharder env previous T = .ok ([], [])) :
    alFind bl T = none ∧ alFind cbl T = none := by
  unfold Do at hdo
  cases hts : env.tenants with
  | error e => rw [hts] at hdo; cases hdo
  | ok ts =>
    rw [hts] at hdo
    dsimp only at hdo
    split at hdo
    · cases hdo
    · rename_i hrem
      injection hdo with hpair
      injection hpair with hbl hrest
      have hnn : 0 ≤ (ts.foldl (doStep cfg sharder env previous)
          ([], [], cfg.tolerateTenantFailures)).2.2 := by omega
      have hNB := foldl_doStep_eq_NB ts ([], [], cfg.tolerateTenantFailures) hnn
      have hentry := foldNB_find_nowrite hok ts ([], [], cfg.tolerateTenantFailures)
      constructor
      · rw [← hbl, hNB]
        exact hentry.1
      · have hcbl : cbl = (ts.foldl (doStep cfg sharder env previous)
            ([], [], cfg.tolerateTenantFailures)).2.1 := by
          rw [← hrest]
        rw [hcbl, hNB]
        exact hentry.2

/-- C3 witness: budget zero, tenant `bad` failing persistently. -/
theorem c3_witness :
    Do wCfg wSharderAll wEnvMixed wPrevBad =
      .error "too many tenant failures; abandoning polling cycle" :=
  c3_budget_zero_fails wCfg wSharderAll wEnvMixed wPrevBad ["bad", "good"] "bad"
    rfl rfl (by decide) (by decide) (fun k hk => ⟨_, rfl⟩)

/-- C4 witness: budget one, tenant `bad` fails, tenant `good` succeeds. -/
theorem c4_witness :
    alFind wC4bl "bad" = some (wPrevBad.Metas "bad") ∧
    alFind wC4cbl "bad" = some (wPrevBad.CompactedMetas "bad") ∧
    (["bad", "good"].foldl (doStep wCfgBudget1 wSharderAll wEnvMixed wPrevBad)
        ([], [], wCfgBudget1.tolerateTenantFailures)).2.2 =
      wCfgBudget1.tolerateTenantFailures -
        ((["bad", "good"].filter
          (fun t => tenantFails wCfgBudget1 wSharderAll wEnvMixed wPrevBad t)).length : Int) :=
  c4_failed_tenant_uses_previous wCfgBudget1 wSharderAll wEnvMixed wPrevBad
    ["bad", "good"] "bad" wC4bl wC4cbl rfl rfl (by decide) (by decide)
    (fun k hk => ⟨_, rfl⟩)

/-- C9 witness: a tenant with an empty store gets no entry. -/
theorem c9_witness :
    alFind ([] : PerTenant) "t" = none ∧
    alFind ([] : PerTenantCompacted) "t" = none :=
  c9_empty_success_no_entry wCfg wSharderAll wEnvEmpty wPrevEmpty [] [] "t"
    rfl rfl



theorem mapInsert_not_mem {u : List (BlockID × Bool)} {k : BlockID} {v : Bool}
    (h : ¬ k ∈ u.map Prod.fst) : mapInsert u k v = u ++ [(k, v)] := by
  unfold mapInsert
  rw [if_neg]
  intro hc
  rcases List.any_eq_true.mp hc with ⟨p, hp, hpk⟩
  exact h (List.mem_map.mpr ⟨p, hp, by simpa using hpk⟩)

theorem liveStep_fold_snd (metas : List BlockMeta) (L : List BlockID)
    (acc : List BlockMeta) (u : List (BlockID × Bool)) :
    (L.foldl (liveStep metas) (acc, u)).2 =
      L.foldl (fun w id =>
        if (mmFind metas id).isSome then w else mapInsert w id false) u := by
  induction L generalizing acc u with
  | nil => rfl
  | cons b rest ih =>
    rw [List.foldl_cons, List.foldl_cons]
    cases h : mmFind metas b with
    | some v =>
      rw [liveStep_some h, ih, if_pos (by simp [h])]
    | none =>
      rw [liveStep_none h, ih, if_neg (by simp [h])]

theorem compactedStep_fold_snd (cms : List CompactedBlockMeta)
    (C : List BlockID) (acc : List CompactedBlockMeta)
    (u : List (BlockID × Bool)) :
    (C.foldl (compactedStep cms) (acc, u)).2 =
      C.foldl (fun w id =>
        if (cmFind cms id).isSome then w else mapInsert w id true) u := by
  induction C generalizing acc u with
  | nil => rfl
  | cons b rest ih =>
    rw [List.foldl_cons, List.foldl_cons]
    cases h : cmFind cms b with
    | some v =>
      rw [compactedStep_some h, ih, if_pos (by simp [h])]
    | none =>
      rw [compactedStep_none h, ih, if_neg (by simp [h])]

theorem fold_mapInsert (v : Bool) (p : BlockID → Bool) :
    ∀ (ks : List BlockID) (u0 : List (BlockID × Bool)), ks.Nodup →
    (∀ k ∈ ks, p k = false → ¬ k ∈ u0.map Prod.fst) →
    ks.foldl (fun w id => if p id then w else mapInsert w id v) u0 =
      u0 ++ (ks.filter (fun id => !(p id))).map (fun id => (id, v)) := by
  intro ks
  induction ks with
  | nil => intro u0 _ _; simp
  | cons k rest ih =>
    intro u0 hnd hfresh
    rw [List.foldl_cons]
    rcases List.nodup_cons.mp hnd with ⟨hk, hr⟩
    cases hp : p k with
    | true =>
      rw [if_pos rfl, List.filter_cons_of_neg (by simp [hp])]
      exact ih u0 hr (fun x hx hpx =>
        hfresh x (List.mem_cons_of_mem _ hx) hpx)
    | false =>
      rw [if_neg (by simp), List.filter_cons_of_pos (by simp [hp]),
        mapInsert_not_mem (hfresh k (List.mem_cons_self _ _) hp)]
      rw [ih (u0 ++ [(k, v)]) hr]
      · simp
      · intro x hx hpx
        rw [List.map_append]
        intro hc
        rcases List.mem_append.mp hc with h1 | h1
        · exact hfresh x (List.mem_cons_of_mem _ hx) hpx h1
        · simp at h1
          exact hk (h1 ▸ hx)

theorem unknown_shape (metas : List BlockMeta) (cms : List CompactedBlockMeta)
    (L C : List BlockID) (hL : L.Nodup) (hC : C.Nodup)
    (hdisj : ∀ id ∈ L, id ∉ C) :
    (compactedPass cms C (livePass metas L).2).2 =
      (L.filter (fun id => !(mmFind metas id).isSome)).map (fun id => (id, false))
      ++ (C.filter (fun id => !(cmFind cms id).isSome)).map (fun id => (id, true)) := by
  unfold livePass compactedPass
  rw [liveStep_fold_snd, compactedStep_fold_snd]
  rw [fold_mapInsert false (fun id => (mmFind metas id).isSome) L [] hL
    (by intro k _ _; simp)]
  rw [fold_mapInsert true (fun id => (cmFind cms id).isSome) C _ hC]
  · simp
  · intro k hk _
    rw [List.nil_append, List.map_map]
    intro hc
    rcases List.mem_map.mp hc with ⟨id, hid, heq⟩
    have : id = k := by simpa using heq
    subst this
    exact hdisj id (List.mem_of_mem_filter hid) hk

theorem pollBlock_ok_some_live {cfg : PollerConfig} {s : Store} {tid : String}
    {id : BlockID} {cpt : Bool} {m : BlockMeta}
    {v : Option CompactedBlockMeta}
    (h : pollBlock cfg s tid id cpt = .ok (some m, v)) :
    cpt = false ∧ s.blockMeta id tid = .ok m ∧ v = none := by
  cases cpt with
  | true =>
    unfold pollBlock pollBlockReads at h
    simp only [Bool.not_true, false_and, if_false] at h
    cases hr : s.compactedBlockMeta id tid <;> rw [hr] at h <;> cases h
  | false =>
    unfold pollBlock pollBlockReads at h
    refine ⟨rfl, ?_, ?_⟩ <;>
    · split at h
      · cases hf : s.hasNoCompactFlag id tid with
        | error e => rw [hf] at h; cases h
        | ok b =>
          rw [hf] at h
          cases b
          · simp only [] at h
            cases hr : s.blockMeta id tid <;> rw [hr] at h
            · injection h with h2
              injection h2 with h3 h4
              injection h3 with h5
              first
              | exact h5 ▸ rfl
              | exact h4.symm
            · cases hr2 : s.compactedBlockMeta id tid <;> rw [hr2] at h <;>
                cases h
            · cases h
          · cases h
      · cases hr : s.blockMeta id tid <;> rw [hr] at h
        · injection h with h2
          injection h2 with h3 h4
          injection h3 with h5
          first
          | exact h5 ▸ rfl
          | exact h4.symm
        · cases hr2 : s.compactedBlockMeta id tid <;> rw [hr2] at h <;> cases h
        · cases h

theorem pollBlock_ok_some_comp {cfg : PollerConfig} {s : Store} {tid : String}
    {id : BlockID} {cpt : Bool} {cm : CompactedBlockMeta}
    (h : pollBlock cfg s tid id cpt = .ok (none, some cm)) :
    s.compactedBlockMeta id tid = .ok cm := by
  cases cpt with
  | true =>
    unfold pollBlock pollBlockReads at h
    simp only [Bool.not_true, false_and, if_false] at h
    cases hr : s.compactedBlockMeta id tid <;> rw [hr] at h
    · injection h with h2
      injection h2 with h3 h4
      injection h4 with h5
      exact h5 ▸ rfl
    · cases h
    · cases h
  | false =>
    unfold pollBlock pollBlockReads at h
    split at h
    · cases hf : s.hasNoCompactFlag id tid with
      | error e => rw [hf] at h; cases h
      | ok b =>
        rw [hf] at h
        cases b
        · simp only [] at h
          cases hr : s.blockMeta id tid <;> rw [hr] at h
          · cases h
          · cases hr2 : s.compactedBlockMeta id tid <;> rw [hr2] at h
            · injection h with h2
              injection h2 with h3 h4
              injection h4 with h5
              exact h5 ▸ rfl
            · cases h
            · cases h
          · cases h
        · cases h
    · cases hr : s.blockMeta id tid <;> rw [hr] at h
      · cases h
      · cases hr2 : s.compactedBlockMeta id tid <;> rw [hr2] at h
        · injection h with h2
          injection h2 with h3 h4
          injection h4 with h5
          exact h5 ▸ rfl
        · cases h
        · cases h
      · cases h

theorem liveOf_true_none (cfg : PollerConfig) (s : Store) (tid : String)
    (id : BlockID) : liveOf cfg s tid (id, true) = none := by
  unfold liveOf
  cases h : pollBlock cfg s tid id true with
  | error e => rfl
  | ok v =>
    obtain ⟨vm, vc⟩ := v
    cases vm with
    | none => rfl
    | some m => exact absurd (pollBlock_ok_some_live h).1 (by simp)

theorem liveOf_some {cfg : PollerConfig} {s : Store} {tid : String}
    {p : BlockID × Bool} {m : BlockMeta}
    (h : liveOf cfg s tid p = some m) :
    p.2 = false ∧ s.blockMeta p.1 tid = .ok m := by
  unfold liveOf at h
  cases hpb : pollBlock cfg s tid p.1 p.2 with
  | error e => rw [hpb] at h; cases h
  | ok v =>
    obtain ⟨vm, vc⟩ := v
    rw [hpb] at h
    cases vm with
    | none => cases h
    | some m2 =>
      injection h with h2
      subst h2
      exact ⟨(pollBlock_ok_some_live hpb).1, (pollBlock_ok_some_live hpb).2.1⟩

theorem compOf_some {cfg : PollerConfig} {s : Store} {tid : String}
    {p : BlockID × Bool} {cm : CompactedBlockMeta}
    (h : compOf cfg s tid p = some cm) :
    s.compactedBlockMeta p.1 tid = .ok cm := by
  unfold compOf at h
  cases hpb : pollBlock cfg s tid p.1 p.2 with
  | error e => rw [hpb] at h; cases h
  | ok v =>
    obtain ⟨vm, vc⟩ := v
    rw [hpb] at h
    cases vm with
    | some m2 => cases h
    | none =>
      cases vc with
      | none => cases h
      | some cm2 =>
        injection h with h2
        subst h2
        exact pollBlock_ok_some_comp hpb

theorem liveOf_compOf_excl {cfg : PollerConfig} {s : Store} {tid : String}
    {p : BlockID × Bool} {m : BlockMeta}
    (h : liveOf cfg s tid p = some m) : compOf cfg s tid p = none := by
  unfold liveOf at h
  unfold compOf
  cases hpb : pollBlock cfg s tid p.1 p.2 with
  | error e => rfl
  | ok v =>
    obtain ⟨vm, vc⟩ := v
    rw [hpb] at h
    cases vm with
    | none => cases h
    | some m2 => rfl

theorem pollUnknownGo_all_ok (cfg : PollerConfig) (s : Store) (tid : String) :
    ∀ (u : List (BlockID × Bool)) (accM : List BlockMeta)
      (accC : List CompactedBlockMeta),
    (∀ p ∈ u, blockOk cfg s tid p = true) →
    pollUnknownGo cfg s tid u accM accC =
      .ok (accM ++ u.filterMap (liveOf cfg s tid),
           accC ++ u.filterMap (compOf cfg s tid)) := by
  intro u
  induction u with
  | nil => intro accM accC _; simp [pollUnknownGo]
  | cons p rest ih =>
    intro accM accC hall
    obtain ⟨pid, pcpt⟩ := p
    have hok := hall (pid, pcpt) (List.mem_cons_self _ _)
    unfold blockOk at hok
    have hrest := fun accM2 accC2 =>
      ih accM2 accC2 (fun q hq => hall q (List.mem_cons_of_mem _ hq))
    cases hpb : pollBlock cfg s tid pid pcpt with
    | error e => rw [hpb] at hok; cases hok
    | ok v =>
      obtain ⟨vm, vc⟩ := v
      cases vm with
      | some m =>
        have hl : liveOf cfg s tid (pid, pcpt) = some m := by
          unfold liveOf
          rw [hpb]
        have hc : compOf cfg s tid (pid, pcpt) = none := by
          unfold compOf
          rw [hpb]
        have heq : pollUnknownGo cfg s tid ((pid, pcpt) :: rest) accM accC =
            pollUnknownGo cfg s tid rest (accM ++ [m]) accC := by
          rw [pollUnknownGo, hpb]
        rw [heq, hrest (accM ++ [m]) accC]
        simp [List.filterMap_cons, hl, hc]
      | none =>
        cases vc with
        | some cm =>
          have hl : liveOf cfg s tid (pid, pcpt) = none := by
            unfold liveOf
            rw [hpb]
          have hc : compOf cfg s tid (pid, pcpt) = some cm := by
            unfold compOf
            rw [hpb]
          have heq : pollUnknownGo cfg s tid ((pid, pcpt) :: rest) accM accC =
              pollUnknownGo cfg s tid rest accM (accC ++ [cm]) := by
            rw [pollUnknownGo, hpb]
          rw [heq, hrest accM (accC ++ [cm])]
          simp [List.filterMap_cons, hl, hc]
        | none =>
          have hl : liveOf cfg s tid (pid, pcpt) = none := by
            unfold liveOf
            rw [hpb]
          have hc : compOf cfg s tid (pid, pcpt) = none := by
            unfold compOf
            rw [hpb]
          have heq : pollUnknownGo cfg s tid ((pid, pcpt) :: rest) accM accC =
              pollUnknownGo cfg s tid rest accM accC := by
            rw [pollUnknownGo, hpb]
          rw [heq, hrest accM accC]
          simp [List.filterMap_cons, hl, hc]

theorem pollUnknownGo_ok_all {cfg : PollerConfig} {s : Store} {tid : String} :
    ∀ {u : List (BlockID × Bool)} {accM : List BlockMeta}
      {accC : List CompactedBlockMeta} {M : List BlockMeta}
      {Cc : List CompactedBlockMeta},
    pollUnknownGo cfg s tid u accM accC = .ok (M, Cc) →
    ∀ p ∈ u, blockOk cfg s tid p = true := by
  intro u
  induction u with
  | nil => intro accM accC M Cc _ p hp; cases hp
  | cons q rest ih =>
    intro accM accC M Cc h p hp
    obtain ⟨qid, qcpt⟩ := q
    rw [pollUnknownGo] at h
    cases hpb : pollBlock cfg s tid qid qcpt with
    | error e => rw [hpb] at h; cases h
    | ok v =>
      obtain ⟨vm, vc⟩ := v
      rw [hpb] at h
      rcases List.mem_cons.mp hp with rfl | hrest
      · unfold blockOk
        rw [hpb]
      · cases vm with
        | some m => exact ih h p hrest
        | none =>
          cases vc with
          | some cm => exact ih h p hrest
          | none => exact ih h p hrest

theorem mmFind_pred {metas : List BlockMeta} {id : BlockID} {M : BlockMeta}
    (h : mmFind metas id = some M) : M.blockID = id := by
  have := List.find?_some h
  simpa using this

theorem cmFind_pred {cms : List CompactedBlockMeta} {id : BlockID}
    {M : CompactedBlockMeta} (h : cmFind cms id = some M) : M.blockID = id := by
  have := List.find?_some h
  simpa using this

theorem mmFind_mem {metas : List BlockMeta} {id : BlockID} {M : BlockMeta}
    (h : mmFind metas id = some M) : M ∈ metas := by
  have := List.mem_of_find?_eq_some h
  exact List.mem_reverse.mp this

theorem cmFind_mem {cms : List CompactedBlockMeta} {id : BlockID}
    {M : CompactedBlockMeta} (h : cmFind cms id = some M) : M ∈ cms := by
  have := List.mem_of_find?_eq_some h
  exact List.mem_reverse.mp this

theorem mmFind_none {metas : List BlockMeta} {id : BlockID}
    (h : mmFind metas id = none) : ∀ M ∈ metas, M.blockID ≠ id := by
  intro M hm
  have := List.find?_eq_none.mp h M (List.mem_reverse.mpr hm)
  simpa using this

theorem cmFind_none {cms : List CompactedBlockMeta} {id : BlockID}
    (h : cmFind cms id = none) : ∀ M ∈ cms, M.blockID ≠ id := by
  intro M hm
  have := List.find?_eq_none.mp h M (List.mem_reverse.mpr hm)
  simpa using this

theorem map_proj_filterMap {β : Type} (f : BlockID → Option β)
    (pr : β → BlockID) (hf : ∀ id b, f id = some b → pr b = id) :
    ∀ ks : List BlockID,
    (ks.filterMap f).map pr = ks.filter (fun id => (f id).isSome) := by
  intro ks
  induction ks with
  | nil => rfl
  | cons k rest ih =>
    rw [List.filterMap_cons]
    cases hk : f k with
    | some b =>
      rw [List.filter_cons_of_pos (by simp [hk]), List.map_cons, ih,
        hf k b hk]
    | none =>
      rw [List.filter_cons_of_neg (by simp [hk]), ih]

theorem filterMap_pair_map {β : Type} (f : BlockID × Bool → Option β)
    (b : Bool) (ks : List BlockID) :
    (ks.map (fun id => (id, b))).filterMap f =
      ks.filterMap (fun id => f (id, b)) := by
  rw [List.filterMap_map]
  rfl

theorem filterMap_none_nil {α β : Type} {f : α → Option β} {l : List α}
    (h : ∀ x ∈ l, f x = none) : l.filterMap f = [] := by
  induction l with
  | nil => rfl
  | cons x rest ih =>
    rw [List.filterMap_cons, h x (List.mem_cons_self _ _)]
    exact ih (fun y hy => h y (List.mem_cons_of_mem _ hy))

theorem pollTenantBlocks_shape {cfg : PollerConfig} {s : Store}
    {prev : Blocklist} {tid : String} {l : List BlockMeta}
    {c : List CompactedBlockMeta} {L C : List BlockID}
    (hblocks : s.blocks tid = .ok (L, C))
    (hL : L.Nodup) (hC : C.Nodup) (hdisj : ∀ id ∈ L, id ∉ C)
    (hres : pollTenantBlocks cfg s prev tid = .ok (l, c)) :
    l = L.filterMap (mmFind (prev.Metas tid)) ++
        ((L.filter (fun id => !(mmFind (prev.Metas tid) id).isSome)).filterMap
          (fun id => liveOf cfg s tid (id, false))) ∧
    c = C.filterMap (cmFind (prev.CompactedMetas tid)) ++
        ((L.filter (fun id => !(mmFind (prev.Metas tid) id).isSome)).filterMap
          (fun id => compOf cfg s tid (id, false)) ++
         (C.filter (fun id => !(cmFind (prev.CompactedMetas tid) id).isSome)).filterMap
          (fun id => compOf cfg s tid (id, true))) ∧
    (∀ id ∈ L.filter (fun id => !(mmFind (prev.Metas tid) id).isSome),
      blockOk cfg s tid (id, false) = true) ∧
    (∀ id ∈ C.filter (fun id => !(cmFind (prev.CompactedMetas tid) id).isSome),
      blockOk cfg s tid (id, true) = true) := by
  unfold pollTenantBlocks at hres
  rw [hblocks] at hres
  dsimp only at hres
  rw [unknown_shape (prev.Metas tid) (prev.CompactedMetas tid) L C hL hC hdisj]
    at hres
  cases hpu : pollUnknown cfg s
      ((L.filter (fun id => !(mmFind (prev.Metas tid) id).isSome)).map
        (fun id => (id, false)) ++
       (C.filter (fun id => !(cmFind (prev.CompactedMetas tid) id).isSome)).map
        (fun id => (id, true))) tid with
  | error e => rw [hpu] at hres; cases hres
  | ok q =>
    rw [hpu] at hres
    obtain ⟨nm, nc⟩ := q
    injection hres with h1
    injection h1 with hl hc
    unfold pollUnknown at hpu
    have hallok := pollUnknownGo_ok_all hpu
    have hval := pollUnknownGo_all_ok cfg s tid _ [] [] hallok
    rw [hpu] at hval
    injection hval with h2
    injection h2 with hnm hnc
    have hLok : ∀ id ∈ L.filter (fun id => !(mmFind (prev.Metas tid) id).isSome),
        blockOk cfg s tid (id, false) = true := by
      intro id hid
      exact hallok (id, false) (List.mem_append_left _
        (List.mem_map.mpr ⟨id, hid, rfl⟩))
    have hCok : ∀ id ∈ C.filter
        (fun id => !(cmFind (prev.CompactedMetas tid) id).isSome),
        blockOk cfg s tid (id, true) = true := by
      intro id hid
      exact hallok (id, true) (List.mem_append_right _
        (List.mem_map.mpr ⟨id, hid, rfl⟩))
    refine ⟨?_, ?_, hLok, hCok⟩
    · rw [← hl, hnm]
      unfold livePass
      rw [liveStep_fold_fst]
      simp only [List.nil_append]
      rw [List.filterMap_append, filterMap_pair_map, filterMap_pair_map]
      rw [filterMap_none_nil (fun id _ => liveOf_true_none cfg s tid id)]
      rw [List.append_nil]
    · rw [← hc, hnc]
      unfold compactedPass
      rw [compactedStep_fold_fst]
      simp only [List.nil_append]
      rw [List.filterMap_append, filterMap_pair_map, filterMap_pair_map]

theorem nodup_five (L C : List BlockID) (hL : L.Nodup) (hC : C.Nodup)
    (hdisj : ∀ id ∈ L, id ∉ C) (p1 p2 r1 q1 r2 : BlockID → Bool)
    (hp2r1 : ∀ id, p2 id = true → r1 id = false) :
    ((L.filter p1 ++ (L.filter (fun id => !(p1 id))).filter p2) ++
     (C.filter q1 ++ ((L.filter (fun id => !(p1 id))).filter r1 ++
       (C.filter (fun id => !(q1 id))).filter r2))).Nodup := by
  have hLu : (L.filter (fun id => !(p1 id))).Nodup := hL.filter _
  have hCu : (C.filter (fun id => !(q1 id))).Nodup := hC.filter _
  have hA : (L.filter p1).Nodup := hL.filter _
  have hB : ((L.filter (fun id => !(p1 id))).filter p2).Nodup := hLu.filter _
  have hD : (C.filter q1).Nodup := hC.filter _
  have hE : ((L.filter (fun id => !(p1 id))).filter r1).Nodup := hLu.filter _
  have hF : ((C.filter (fun id => !(q1 id))).filter r2).Nodup := hCu.filter _
  have memA : ∀ x, x ∈ L.filter p1 → x ∈ L ∧ p1 x = true := by
    intro x hx
    exact ⟨List.mem_of_mem_filter hx, List.of_mem_filter hx⟩
  have memB : ∀ x, x ∈ (L.filter (fun id => !(p1 id))).filter p2 →
      x ∈ L ∧ p1 x = false ∧ p2 x = true := by
    intro x hx
    have h1 := List.mem_of_mem_filter hx
    have h2 := List.of_mem_filter hx
    have h3 := List.of_mem_filter h1
    exact ⟨List.mem_of_mem_filter h1, by simpa using h3, h2⟩
  have memD : ∀ x, x ∈ C.filter q1 → x ∈ C := by
    intro x hx
    exact List.mem_of_mem_filter hx
  have memE : ∀ x, x ∈ (L.filter (fun id => !(p1 id))).filter r1 →
      x ∈ L ∧ p1 x = false ∧ r1 x = true := by
    intro x hx
    have h1 := List.mem_of_mem_filter hx
    have h2 := List.of_mem_filter hx
    have h3 := List.of_mem_filter h1
    exact ⟨List.mem_of_mem_filter h1, by simpa using h3, h2⟩
  have memF : ∀ x, x ∈ (C.filter (fun id => !(q1 id))).filter r2 → x ∈ C := by
    intro x hx
    exact List.mem_of_mem_filter (List.mem_of_mem_filter hx)
  have dEF : ((L.filter (fun id => !(p1 id))).filter r1).Disjoint
      ((C.filter (fun id => !(q1 id))).filter r2) := by
    intro a ha hb
    exact hdisj a (memE a ha).1 (memF a hb)
  have hEF := hE.append hF dEF
  have dDEF : (C.filter q1).Disjoint
      ((L.filter (fun id => !(p1 id))).filter r1 ++
       (C.filter (fun id => !(q1 id))).filter r2) := by
    intro a ha hb
    rcases List.mem_append.mp hb with h1 | h1
    · exact hdisj a (memE a h1).1 (memD a ha)
    · have h2 := List.of_mem_filter h1
      have h3 := List.of_mem_filter (List.mem_of_mem_filter h1)
      have h4 := List.of_mem_filter ha
      simp only [Bool.not_eq_true'] at h3
      have h5 : a ∈ C.filter (fun id => !(q1 id)) := List.mem_of_mem_filter h1
      have h6 := List.of_mem_filter h5
      simp only [Bool.not_eq_true'] at h6
      rw [h6] at h4
      cases h4
  have hDEF := hD.append hEF dDEF
  have dAB : (L.filter p1).Disjoint
      ((L.filter (fun id => !(p1 id))).filter p2) := by
    intro a ha hb
    have h1 := (memA a ha).2
    have h2 := (memB a hb).2.1
    rw [h1] at h2
    cases h2
  have hAB := hA.append hB dAB
  have dTot : ((L.filter p1) ++ (L.filter (fun id => !(p1 id))).filter p2).Disjoint
      ((C.filter q1) ++ ((L.filter (fun id => !(p1 id))).filter r1 ++
       (C.filter (fun id => !(q1 id))).filter r2)) := by
    intro a ha hb
    have haL : a ∈ L := by
      rcases List.mem_append.mp ha with h1 | h1
      · exact (memA a h1).1
      · exact (memB a h1).1
    rcases List.mem_append.mp hb with h1 | h1
    · exact hdisj a haL (memD a h1)
    · rcases List.mem_append.mp h1 with h2 | h2
      · -- a in both live-known/resolved and unknown-compacted-resolved from L
        rcases List.mem_append.mp ha with h3 | h3
        · have hp1 := (memA a h3).2
          have hp1f := (memE a h2).2.1
          rw [hp1] at hp1f
          cases hp1f
        · have hp2t := (memB a h3).2.2
          have hr1t := (memE a h2).2.2
          have := hp2r1 a hp2t
          rw [hr1t] at this
          cases this
      · exact hdisj a haL (memF a h2)
  exact hAB.append hDEF dTot

theorem pollTenantBlocks_pairWF {cfg : PollerConfig} {s : Store}
    {prev : Blocklist} {tid : String} {l : List BlockMeta}
    {c : List CompactedBlockMeta}
    (hwf : StoreWF s tid)
    (hres : pollTenantBlocks cfg s prev tid = .ok (l, c)) :
    pairWF l c := by
  cases hblocks : s.blocks tid with
  | error e =>
    unfold pollTenantBlocks at hres
    rw [hblocks] at hres
    cases hres
  | ok q =>
    obtain ⟨L, C⟩ := q
    obtain ⟨hL, hC, hdisj⟩ := hwf.blocksNodup L C hblocks
    obtain ⟨hl, hc, -, -⟩ :=
      pollTenantBlocks_shape hblocks hL hC hdisj hres
    unfold pairWF
    rw [hl, hc]
    rw [List.map_append, List.map_append, List.map_append]
    rw [map_proj_filterMap (mmFind (prev.Metas tid)) BlockMeta.blockID
      (fun id b h => mmFind_pred h) L]
    rw [map_proj_filterMap (fun id => liveOf cfg s tid (id, false))
      BlockMeta.blockID
      (fun id b h => hwf.liveMetaID id b (liveOf_some h).2) _]
    rw [map_proj_filterMap (cmFind (prev.CompactedMetas tid))
      CompactedBlockMeta.blockID (fun id b h => cmFind_pred h) C]
    rw [map_proj_filterMap (fun id => compOf cfg s tid (id, false))
      CompactedBlockMeta.blockID
      (fun id b h => hwf.compMetaID id b (compOf_some h)) _]
    rw [map_proj_filterMap (fun id => compOf cfg s tid (id, true))
      CompactedBlockMeta.blockID
      (fun id b h => hwf.compMetaID id b (compOf_some h)) _]
    refine nodup_five L C hL hC hdisj _ _ _ _ _ ?_
    intro id hp2
    rcases Option.isSome_iff_exists.mp hp2 with ⟨m, hm⟩
    rw [liveOf_compOf_excl hm]
    rfl

theorem tenantIndexPollError_ok {cfg : PollerConfig} {s : Store}
    {r : RRes TenantIndex} {idx : TenantIndex}
    (h : tenantIndexPollError cfg s r = .ok idx) : r = .ok idx := by
  cases r with
  | ok idx2 =>
    unfold tenantIndexPollError at h
    dsimp only at h
    by_cases hc : cfg.staleTenantIndex ≠ 0 ∧
        s.now - idx2.createdAt > cfg.staleTenantIndex
    · rw [if_pos hc] at h
      cases h
    · rw [if_neg hc] at h
      injection h with h2
      rw [h2]
  | notFound =>
    unfold tenantIndexPollError at h
    cases h
  | fail e =>
    unfold tenantIndexPollError at h
    cases h

theorem builderPath_pairWF {cfg : PollerConfig} {s : Store} {prev : Blocklist}
    {tid : String} {l : List BlockMeta} {c : List CompactedBlockMeta}
    (hwf : StoreWF s tid)
    (h : builderPath cfg s prev tid = .ok (l, c)) : pairWF l c := by
  unfold builderPath at h
  cases hpb : pollTenantBlocks cfg s prev tid with
  | error e => rw [hpb] at h; cases h
  | ok q =>
    obtain ⟨bl, cbl⟩ := q
    rw [hpb] at h
    dsimp only at h
    split at h
    · split at h
      · cases h
      · injection h with h2
        injection h2 with h3 h4
        exact h3 ▸ h4 ▸ pollTenantBlocks_pairWF hwf hpb
    · injection h with h2
      injection h2 with h3 h4
      exact h3 ▸ h4 ▸ pollTenantBlocks_pairWF hwf hpb

theorem pollTenantAndCreateIndex_pairWF {cfg : PollerConfig}
    {sharder : String → Bool} {s : Store} {prev : Blocklist} {tid : String}
    {l : List BlockMeta} {c : List CompactedBlockMeta}
    (hwf : StoreWF s tid)
    (h : pollTenantAndCreateIndex cfg sharder s prev tid = .ok (l, c)) :
    pairWF l c := by
  unfold pollTenantAndCreateIndex at h
  split at h
  · exact builderPath_pairWF hwf h
  · cases hti : tenantIndexPollError cfg s (s.tenantIndex tid) with
    | ok idx =>
      rw [hti] at h
      dsimp only at h
      injection h with h2
      injection h2 with h3 h4
      have hread := tenantIndexPollError_ok hti
      exact h3 ▸ h4 ▸ hwf.indexWF idx hread
    | error e =>
      rw [hti] at h
      dsimp only at h
      by_cases hpf : cfg.pollFallback = true
      · rw [if_neg (by simp [hpf])] at h
        exact builderPath_pairWF hwf h
      · rw [if_pos (by simp [hpf])] at h
        cases h

theorem retryPoll_ok_cases
    {f : Nat → Except Err (List BlockMeta × List CompactedBlockMeta)}
    {a : List BlockMeta × List CompactedBlockMeta} :
    ∀ {fuel k : Nat}, retryPoll f k fuel = .ok a →
    a = ([], []) ∨ ∃ j, f j = .ok a := by
  intro fuel
  induction fuel with
  | zero =>
    intro k h
    unfold retryPoll at h
    injection h with h2
    exact Or.inl h2.symm
  | succ n ih =>
    intro k h
    unfold retryPoll at h
    cases hf : f k with
    | ok b =>
      rw [hf] at h
      injection h with h2
      exact Or.inr ⟨k, h2 ▸ hf⟩
    | error e =>
      rw [hf] at h
      cases n with
      | zero => cases h
      | succ m => exact ih h

theorem tenantResult_pairWF {cfg : PollerConfig} {sharder : String → Bool}
    {env : Env} {prev : Blocklist} {T : String} {l : List BlockMeta}
    {c : List CompactedBlockMeta}
    (hwf : ∀ k, StoreWF (env.store T k) T)
    (h : tenantResult cfg sharder env prev T = .ok (l, c)) : pairWF l c := by
  unfold tenantResult at h
  rcases retryPoll_ok_cases h with h1 | h1
  · injection h1 with h2 h3
    rw [h2, h3]
    unfold pairWF
    simp
  · rcases h1 with ⟨j, hj⟩
    exact pollTenantAndCreateIndex_pairWF (hwf j) hj

theorem alGetD_upsert_self {β : Type} (m : List (String × List β))
    (k : String) (v : List β) : alGetD (alUpsert m k v) k = v := by
  unfold alGetD
  rw [alFind_upsert, if_pos rfl]
  rfl

theorem alGetD_upsert_other {β : Type} (m : List (String × List β))
    {k k' : String} (v : List β) (h : ¬ k' = k) :
    alGetD (alUpsert m k v) k' = alGetD m k' := by
  unfold alGetD
  rw [alFind_upsert, if_neg h]

theorem foldNB_pairWF {cfg : PollerConfig} {sharder : String → Bool}
    {env : Env} {previous : Blocklist}
    (hprev : ∀ t, pairWF (previous.Metas t) (previous.CompactedMetas t))
    (hres : ∀ t l c, tenantResult cfg sharder env previous t = .ok (l, c) →
      pairWF l c)
    (ts : List String) (st : PerTenant × PerTenantCompacted × Int)
    (hst : ∀ T, pairWF (alGetD st.1 T) (alGetD st.2.1 T)) :
    ∀ T, pairWF
      (alGetD (ts.foldl (doStepNB cfg sharder env previous) st).1 T)
      (alGetD (ts.foldl (doStepNB cfg sharder env previous) st).2.1 T) := by
  induction ts generalizing st with
  | nil => exact hst
  | cons t rest ih =>
    rw [List.foldl_cons]
    refine ih _ ?_
    intro T
    unfold doStepNB
    cases hr : tenantResult cfg sharder env previous t with
    | error e =>
      dsimp only
      by_cases hTt : T = t
      · subst hTt
        rw [alGetD_upsert_self, alGetD_upsert_self]
        exact hprev T
      · rw [alGetD_upsert_other _ _ hTt, alGetD_upsert_other _ _ hTt]
        exact hst T
    | ok p =>
      obtain ⟨lv, cv⟩ := p
      dsimp only
      split
      · by_cases hTt : T = t
        · subst hTt
          rw [alGetD_upsert_self, alGetD_upsert_self]
          exact hres T lv cv hr
        · rw [alGetD_upsert_other _ _ hTt, alGetD_upsert_other _ _ hTt]
          exact hst T
      · exact hst T

/-- C1 (amended): provided each observed store snapshot is well-formed (its
live/compacted listings are duplicate-free and disjoint, meta reads return the
meta of the requested block, and any readable tenant index satisfies the
snapshot invariant) and the previous snapshot satisfies the invariant, every
tenant's entries in the maps returned by `Do` contain each block id at most
once across the live and compacted lists. -/
theorem c1_blockids_unique_amended (cfg : PollerConfig)
    (sharder : String → Bool) (env : Env) (previous : Blocklist)
    (bl : PerTenant) (cbl : PerTenantCompacted)
    (hwf : ∀ t k, StoreWF (env.store t k) t)
    (hprev : ∀ t, pairWF (previous.Metas t) (previous.CompactedMetas t))
    (hdo : Do cfg sharder env previous = .ok (bl, cbl)) :
    ∀ T, pairWF (alGetD bl T) (alGetD cbl T) := by
  unfold Do at hdo
  cases hts : env.tenants with
  | error e => rw [hts] at hdo; cases hdo
  | ok ts =>
    rw [hts] at hdo
    dsimp only at hdo
    split at hdo
    · cases hdo
    · rename_i hrem
      injection hdo with hpair
      injection hpair with hbl hrest
      have hnn : 0 ≤ (ts.foldl (doStep cfg sharder env previous)
          ([], [], cfg.tolerateTenantFailures)).2.2 := by omega
      have hNB := foldl_doStep_eq_NB ts ([], [], cfg.tolerateTenantFailures) hnn
      intro T
      have hinv := foldNB_pairWF hprev
        (fun t l c h =>
          @tenantResult_pairWF cfg sharder env previous t l c (hwf t) h) ts
        ([], [], cfg.tolerateTenantFailures)
        (fun T2 => by simp [alGetD, alFind, pairWF]) T
      rw [← hbl, ← hrest, hNB]
      exact hinv

/-- C1 counterexample: with block 1 listed both live and compacted and its
live meta known from the previous cycle, `Do` returns block 1 in both the
live and the compacted list of tenant `t`, violating the claim as stated. -/
theorem c1_counterexample :
    Do wCfg wSharderAll wEnvBoth wPrevA =
      .ok ([("t", [wMetaA])], [("t", [wCMetaA])]) ∧
    ¬ pairWF [wMetaA] [wCMetaA] :=
  ⟨rfl, by unfold pairWF; decide⟩

/-- C1 witness: a well-formed store with two live blocks yields maps whose
entries satisfy the uniqueness invariant. -/
theorem c1_witness :
    pairWF (alGetD [("t", [wMetaA, wMetaB])] "t")
      (alGetD [("t", ([] : List CompactedBlockMeta))] "t") := by
  refine c1_blockids_unique_amended wCfg wSharderAll wEnvTwo wPrevEmpty
    [("t", [wMetaA, wMetaB])] [("t", [])] ?_ ?_ rfl "t"
  · intro t k
    refine ⟨?_, ?_, ?_, ?_⟩
    · intro L C h
      injection h with h2
      injection h2 with hL hC
      subst hL
      subst hC
      refine ⟨by decide, by decide, by decide⟩
    · intro id m h
      injection h with h2
      rw [← h2]
    · intro id cm h
      exact RRes.noConfusion h
    · intro idx h
      exact RRes.noConfusion h
  · intro t
    exact List.nodup_nil

theorem filterMap_filter_guard {β : Type} (p : BlockID → Bool)
    (g : BlockID → Option β) (xs : List BlockID) :
    (xs.filter p).filterMap g =
      xs.filterMap (fun x => if p x then g x else none) := by
  induction xs with
  | nil => rfl
  | cons x rest ih =>
    by_cases hp : p x = true
    · rw [List.filter_cons_of_pos hp, List.filterMap_cons, List.filterMap_cons,
        if_pos hp]
      cases g x <;> rw [ih]
  -- none: both skip
    · rw [List.filter_cons_of_neg (by simp [hp]), List.filterMap_cons,
        if_neg hp, ih]

theorem perm_filterMap_or {β : Type} (f g : BlockID → Option β) :
    ∀ xs : List BlockID, (∀ x ∈ xs, f x = none ∨ g x = none) →
    (xs.filterMap f ++ xs.filterMap g).Perm
      (xs.filterMap (fun x => (f x).or (g x))) := by
  intro xs
  induction xs with
  | nil => intro _; simp
  | cons x rest ih =>
    intro hd
    have hrest := ih (fun y hy => hd y (List.mem_cons_of_mem _ hy))
    rw [List.filterMap_cons, List.filterMap_cons, List.filterMap_cons]
    rcases hd x (List.mem_cons_self _ _) with hx | hx
    · rw [hx]
      cases hg : g x with
      | none =>
        simp only [Option.or_none, Option.none_or]
        exact hrest
      | some v =>
        simp only [Option.none_or]
        refine List.Perm.trans List.perm_middle ?_
        exact hrest.cons v
    · rw [hx]
      cases hf : f x with
      | none =>
        simp only [Option.none_or, Option.or_none]
        exact hrest
      | some v =>
        simp only [Option.or_none]
        simp only [List.cons_append]
        exact hrest.cons v

theorem pollTenantBlocks_canon {cfg : PollerConfig} {s : Store}
    {prev : Blocklist} {tid : String} {l : List BlockMeta}
    {c : List CompactedBlockMeta} {L C : List BlockID}
    (hblocks : s.blocks tid = .ok (L, C))
    (hL : L.Nodup) (hC : C.Nodup) (hdisj : ∀ id ∈ L, id ∉ C)
    (hres : pollTenantBlocks cfg s prev tid = .ok (l, c)) :
    l.Perm (L.filterMap (liveRes cfg s tid (prev.Metas tid))) ∧
    c.Perm (C.filterMap (compResC cfg s tid (prev.CompactedMetas tid)) ++
      L.filterMap (compResL cfg s tid (prev.Metas tid))) := by
  obtain ⟨hl, hc, -, -⟩ := pollTenantBlocks_shape hblocks hL hC hdisj hres
  constructor
  · rw [hl, filterMap_filter_guard]
    refine List.Perm.trans (perm_filterMap_or _ _ L ?_) ?_
    · intro x _
      cases hx : mmFind (prev.Metas tid) x with
      | some M => exact Or.inr (by simp [hx])
      | none => exact Or.inl rfl
    · rw [List.filterMap_congr]
      intro x _
      unfold liveRes
      cases hx : mmFind (prev.Metas tid) x with
      | some M => rw [Option.or_some]
      | none =>
        rw [Option.none_or, if_pos (by simp [hx])]
  · rw [hc, filterMap_filter_guard, filterMap_filter_guard]
    have hXeq : L.filterMap
        (fun x => if !(mmFind (prev.Metas tid) x).isSome
          then compOf cfg s tid (x, false) else none) =
        L.filterMap (compResL cfg s tid (prev.Metas tid)) := by
      refine List.filterMap_congr ?_
      intro x _
      unfold compResL
      cases hx : mmFind (prev.Metas tid) x with
      | some M =>
        rw [if_neg (by simp [hx]), if_pos (by simp [hx])]
      | none =>
        rw [if_pos (by simp [hx]), if_neg (by simp [hx])]
    rw [hXeq]
    refine List.Perm.trans
      (List.Perm.append_left _ List.perm_append_comm) ?_
    rw [← List.append_assoc]
    refine List.Perm.append ?_ (List.Perm.refl _)
    refine List.Perm.trans (perm_filterMap_or _ _ C ?_) ?_
    · intro x _
      cases hx : cmFind (prev.CompactedMetas tid) x with
      | some M => exact Or.inr (by simp [hx])
      | none => exact Or.inl rfl
    · rw [List.filterMap_congr]
      intro x _
      unfold compResC
      cases hx : cmFind (prev.CompactedMetas tid) x with
      | some M => rw [Option.or_some]
      | none =>
        rw [Option.none_or, if_pos (by simp [hx])]

theorem mmFind_eq_none_of {metas : List BlockMeta} {id : BlockID}
    (h : ∀ M ∈ metas, ¬ M.blockID = id) : mmFind metas id = none := by
  unfold mmFind
  rw [List.find?_eq_none]
  intro M hm
  simp only [decide_eq_true_eq]
  exact h M (List.mem_reverse.mp hm)

theorem cmFind_eq_none_of {cms : List CompactedBlockMeta} {id : BlockID}
    (h : ∀ M ∈ cms, ¬ M.blockID = id) : cmFind cms id = none := by
  unfold cmFind
  rw [List.find?_eq_none]
  intro M hm
  simp only [decide_eq_true_eq]
  exact h M (List.mem_reverse.mp hm)

theorem pollTenantBlocks_ids {cfg : PollerConfig} {s : Store}
    {prev : Blocklist} {tid : String} {l : List BlockMeta}
    {c : List CompactedBlockMeta} {L C : List BlockID}
    (hwf : StoreWF s tid)
    (hblocks : s.blocks tid = .ok (L, C))
    (hL : L.Nodup) (hC : C.Nodup) (hdisj : ∀ id ∈ L, id ∉ C)
    (hres : pollTenantBlocks cfg s prev tid = .ok (l, c)) :
    l.map BlockMeta.blockID =
      L.filter (fun id => (mmFind (prev.Metas tid) id).isSome) ++
      (L.filter (fun id => !(mmFind (prev.Metas tid) id).isSome)).filter
        (fun id => (liveOf cfg s tid (id, false)).isSome) ∧
    c.map CompactedBlockMeta.blockID =
      C.filter (fun id => (cmFind (prev.CompactedMetas tid) id).isSome) ++
      ((L.filter (fun id => !(mmFind (prev.Metas tid) id).isSome)).filter
        (fun id => (compOf cfg s tid (id, false)).isSome) ++
       (C.filter (fun id => !(cmFind (prev.CompactedMetas tid) id).isSome)).filter
        (fun id => (compOf cfg s tid (id, true)).isSome)) := by
  obtain ⟨hl, hc, -, -⟩ := pollTenantBlocks_shape hblocks hL hC hdisj hres
  constructor
  · rw [hl, List.map_append]
    rw [map_proj_filterMap (mmFind (prev.Metas tid)) BlockMeta.blockID
      (fun id b h => mmFind_pred h) L]
    rw [map_proj_filterMap (fun id => liveOf cfg s tid (id, false))
      BlockMeta.blockID
      (fun id b h => hwf.liveMetaID id b (liveOf_some h).2) _]
  · rw [hc, List.map_append, List.map_append]
    rw [map_proj_filterMap (cmFind (prev.CompactedMetas tid))
      CompactedBlockMeta.blockID (fun id b h => cmFind_pred h) C]
    rw [map_proj_filterMap (fun id => compOf cfg s tid (id, false))
      CompactedBlockMeta.blockID
      (fun id b h => hwf.compMetaID id b (compOf_some h)) _]
    rw [map_proj_filterMap (fun id => compOf cfg s tid (id, true))
      CompactedBlockMeta.blockID
      (fun id b h => hwf.compMetaID id b (compOf_some h)) _]

theorem find_of_nodup_ids_c {l : List CompactedBlockMeta} {B : BlockID}
    {M : CompactedBlockMeta}
    (hn : (l.map CompactedBlockMeta.blockID).Nodup) (hm : M ∈ l)
    (hid : M.blockID = B) :
    l.find? (fun m => m.blockID = B) = some M := by
  induction l with
  | nil => cases hm
  | cons h t ih =>
    simp only [List.map_cons, List.nodup_cons] at hn
    rcases List.mem_cons.mp hm with rfl | hmt
    · simp [List.find?, hid]
    · have hne : ¬ h.blockID = B := by
        intro hEq
        exact hn.1 (hEq ▸ hid ▸
          List.mem_map_of_mem CompactedBlockMeta.blockID hmt)
      rw [List.find?]
      have hd : (decide (h.blockID = B)) = false := by
        simp [hne]
      rw [hd]
      exact ih hn.2 hmt

theorem cmFind_eq_of_mem {cms : List CompactedBlockMeta} {B : BlockID}
    {M : CompactedBlockMeta}
    (hn : (cms.map CompactedBlockMeta.blockID).Nodup) (hm : M ∈ cms)
    (hid : M.blockID = B) :
    cmFind cms B = some M := by
  unfold cmFind
  refine find_of_nodup_ids_c ?_ (List.mem_reverse.mpr hm) hid
  rw [List.map_reverse]
  exact List.nodup_reverse.mpr hn

theorem liveRes_eq_some {cfg : PollerConfig} {s : Store} {tid : String}
    {metas : List BlockMeta} {id : BlockID} {M : BlockMeta}
    (h : mmFind metas id = some M) : liveRes cfg s tid metas id = some M := by
  unfold liveRes
  rw [h]

theorem liveRes_eq_none {cfg : PollerConfig} {s : Store} {tid : String}
    {metas : List BlockMeta} {id : BlockID}
    (h : mmFind metas id = none) :
    liveRes cfg s tid metas id = liveOf cfg s tid (id, false) := by
  unfold liveRes
  rw [h]

theorem compResC_eq_some {cfg : PollerConfig} {s : Store} {tid : String}
    {cms : List CompactedBlockMeta} {id : BlockID} {M : CompactedBlockMeta}
    (h : cmFind cms id = some M) : compResC cfg s tid cms id = some M := by
  unfold compResC
  rw [h]

theorem compResC_eq_none {cfg : PollerConfig} {s : Store} {tid : String}
    {cms : List CompactedBlockMeta} {id : BlockID}
    (h : cmFind cms id = none) :
    compResC cfg s tid cms id = compOf cfg s tid (id, true) := by
  unfold compResC
  rw [h]

theorem compResL_eq_some {cfg : PollerConfig} {s : Store} {tid : String}
    {metas : List BlockMeta} {id : BlockID} {M : BlockMeta}
    (h : mmFind metas id = some M) : compResL cfg s tid metas id = none := by
  unfold compResL
  rw [if_pos (by simp [h])]

theorem compResL_eq_none {cfg : PollerConfig} {s : Store} {tid : String}
    {metas : List BlockMeta} {id : BlockID}
    (h : mmFind metas id = none) :
    compResL cfg s tid metas id = compOf cfg s tid (id, false) := by
  unfold compResL
  rw [if_neg (by simp [h])]

theorem pollTenantBlocks_second {cfg : PollerConfig} {s : Store}
    {prev prev2 : Blocklist} {tid : String} {l1 : List BlockMeta}
    {c1 : List CompactedBlockMeta}
    (hwf : StoreWF s tid)
    (hres1 : pollTenantBlocks cfg s prev tid = .ok (l1, c1))
    (hm2 : prev2.Metas tid = l1)
    (hc2 : prev2.CompactedMetas tid = c1) :
    ∃ l2 c2, pollTenantBlocks cfg s prev2 tid = .ok (l2, c2) ∧
      l2.Perm l1 ∧ c2.Perm c1 := by
  cases hblocks : s.blocks tid with
  | error e =>
    unfold pollTenantBlocks at hres1
    rw [hblocks] at hres1
    cases hres1
  | ok q =>
    obtain ⟨L, C⟩ := q
    obtain ⟨hL, hC, hdisj⟩ := hwf.blocksNodup L C hblocks
    obtain ⟨hl1, hc1, hLok, hCok⟩ :=
      pollTenantBlocks_shape hblocks hL hC hdisj hres1
    obtain ⟨hidsl, hidsc⟩ :=
      pollTenantBlocks_ids hwf hblocks hL hC hdisj hres1
    have hpw := pollTenantBlocks_pairWF hwf hres1
    have hnl : (l1.map BlockMeta.blockID).Nodup := (List.nodup_append.mp hpw).1
    have hnc : (c1.map CompactedBlockMeta.blockID).Nodup :=
      (List.nodup_append.mp hpw).2.1
    have memKnownL : ∀ {id : BlockID} {M : BlockMeta}, id ∈ L →
        mmFind (prev.Metas tid) id = some M → M ∈ l1 := by
      intro id M hid h
      rw [hl1]
      exact List.mem_append_left _ (List.mem_filterMap.mpr ⟨id, hid, h⟩)
    have memResL : ∀ {id : BlockID} {m : BlockMeta}, id ∈ L →
        mmFind (prev.Metas tid) id = none →
        liveOf cfg s tid (id, false) = some m → m ∈ l1 := by
      intro id m hid hmm hlv
      rw [hl1]
      refine List.mem_append_right _ (List.mem_filterMap.mpr ⟨id, ?_, hlv⟩)
      exact List.mem_filter.mpr ⟨hid, by simp [hmm]⟩
    have memKnownC : ∀ {id : BlockID} {M : CompactedBlockMeta}, id ∈ C →
        cmFind (prev.CompactedMetas tid) id = some M → M ∈ c1 := by
      intro id M hid h
      rw [hc1]
      exact List.mem_append_left _ (List.mem_filterMap.mpr ⟨id, hid, h⟩)
    have memResCL : ∀ {id : BlockID} {cm : CompactedBlockMeta}, id ∈ L →
        mmFind (prev.Metas tid) id = none →
        compOf cfg s tid (id, false) = some cm → cm ∈ c1 := by
      intro id cm hid hmm hcv
      rw [hc1]
      refine List.mem_append_right _ (List.mem_append_left _
        (List.mem_filterMap.mpr ⟨id, ?_, hcv⟩))
      exact List.mem_filter.mpr ⟨hid, by simp [hmm]⟩
    have memResCC : ∀ {id : BlockID} {cm : CompactedBlockMeta}, id ∈ C →
        cmFind (prev.CompactedMetas tid) id = none →
        compOf cfg s tid (id, true) = some cm → cm ∈ c1 := by
      intro id cm hid hcm hcv
      rw [hc1]
      refine List.mem_append_right _ (List.mem_append_right _
        (List.mem_filterMap.mpr ⟨id, ?_, hcv⟩))
      exact List.mem_filter.mpr ⟨hid, by simp [hcm]⟩
    have idsl_not : ∀ {id : BlockID}, id ∈ L →
        mmFind (prev.Metas tid) id = none →
        liveOf cfg s tid (id, false) = none → mmFind l1 id = none := by
      intro id hid hmm hlv
      refine mmFind_eq_none_of ?_
      intro M hM heq
      have hmem : id ∈ l1.map BlockMeta.blockID :=
        heq ▸ List.mem_map_of_mem _ hM
      rw [hidsl] at hmem
      rcases List.mem_append.mp hmem with h1 | h1
      · have := List.of_mem_filter h1
        simp [hmm] at this
      · have := List.of_mem_filter h1
        simp [hlv] at this
    have idsc_not : ∀ {id : BlockID}, id ∈ C →
        cmFind (prev.CompactedMetas tid) id = none →
        compOf cfg s tid (id, true) = none → cmFind c1 id = none := by
      intro id hid hcm hcv
      refine cmFind_eq_none_of ?_
      intro M hM heq
      have hmem : id ∈ c1.map CompactedBlockMeta.blockID :=
        heq ▸ List.mem_map_of_mem _ hM
      rw [hidsc] at hmem
      rcases List.mem_append.mp hmem with h1 | h1
      · have := List.of_mem_filter h1
        simp [hcm] at this
      · rcases List.mem_append.mp h1 with h2 | h2
        · have hinL : id ∈ L :=
            List.mem_of_mem_filter (List.mem_of_mem_filter h2)
          exact hdisj id hinL hid
        · have := List.of_mem_filter h2
          simp [hcv] at this
    have stableL : ∀ id ∈ L,
        liveRes cfg s tid l1 id = liveRes cfg s tid (prev.Metas tid) id := by
      intro id hid
      cases hmm : mmFind (prev.Metas tid) id with
      | some M =>
        rw [liveRes_eq_some hmm,
          liveRes_eq_some (mmFind_eq_of_mem hnl (memKnownL hid hmm)
            (mmFind_pred hmm))]
      | none =>
        rw [liveRes_eq_none hmm]
        cases hlv : liveOf cfg s tid (id, false) with
        | some m =>
          have hmid : m.blockID = id := hwf.liveMetaID id m (liveOf_some hlv).2
          rw [liveRes_eq_some (mmFind_eq_of_mem hnl (memResL hid hmm hlv) hmid)]
        | none =>
          rw [liveRes_eq_none (idsl_not hid hmm hlv), hlv]
    have stableCC : ∀ id ∈ C,
        compResC cfg s tid c1 id =
          compResC cfg s tid (prev.CompactedMetas tid) id := by
      intro id hid
      cases hcm : cmFind (prev.CompactedMetas tid) id with
      | some M =>
        rw [compResC_eq_some hcm,
          compResC_eq_some (cmFind_eq_of_mem hnc (memKnownC hid hcm)
            (cmFind_pred hcm))]
      | none =>
        rw [compResC_eq_none hcm]
        cases hcv : compOf cfg s tid (id, true) with
        | some cm =>
          have hmid : cm.blockID = id := hwf.compMetaID id cm (compOf_some hcv)
          rw [compResC_eq_some (cmFind_eq_of_mem hnc (memResCC hid hcm hcv)
            hmid)]
        | none =>
          rw [compResC_eq_none (idsc_not hid hcm hcv), hcv]
    have stableCL : ∀ id ∈ L,
        compResL cfg s tid l1 id =
          compResL cfg s tid (prev.Metas tid) id := by
      intro id hid
      cases hmm : mmFind (prev.Metas tid) id with
      | some M =>
        rw [compResL_eq_some hmm,
          compResL_eq_some (mmFind_eq_of_mem hnl (memKnownL hid hmm)
            (mmFind_pred hmm))]
      | none =>
        rw [compResL_eq_none hmm]
        cases hlv : liveOf cfg s tid (id, false) with
        | some m =>
          have hmid : m.blockID = id := hwf.liveMetaID id m (liveOf_some hlv).2
          rw [compResL_eq_some (mmFind_eq_of_mem hnl (memResL hid hmm hlv)
            hmid), liveOf_compOf_excl hlv]
        | none =>
          rw [compResL_eq_none (idsl_not hid hmm hlv)]
    have hall2 : ∀ p ∈
        ((L.filter (fun id => !(mmFind l1 id).isSome)).map
          (fun id => (id, false)) ++
         (C.filter (fun id => !(cmFind c1 id).isSome)).map
          (fun id => (id, true))),
        blockOk cfg s tid p = true := by
      intro p hp
      rcases List.mem_append.mp hp with h1 | h1
      · rcases List.mem_map.mp h1 with ⟨id, hid, rfl⟩
        have hidL : id ∈ L := List.mem_of_mem_filter hid
        have hflag := List.of_mem_filter hid
        have hmm1 : mmFind (prev.Metas tid) id = none := by
          cases hmm : mmFind (prev.Metas tid) id with
          | none => rfl
          | some M =>
            have := mmFind_eq_of_mem hnl (memKnownL hidL hmm) (mmFind_pred hmm)
            rw [this] at hflag
            cases hflag
        exact hLok id (List.mem_filter.mpr ⟨hidL, by simp [hmm1]⟩)
      · rcases List.mem_map.mp h1 with ⟨id, hid, rfl⟩
        have hidC : id ∈ C := List.mem_of_mem_filter hid
        have hflag := List.of_mem_filter hid
        have hcm1 : cmFind (prev.CompactedMetas tid) id = none := by
          cases hcm : cmFind (prev.CompactedMetas tid) id with
          | none => rfl
          | some M =>
            have := cmFind_eq_of_mem hnc (memKnownC hidC hcm) (cmFind_pred hcm)
            rw [this] at hflag
            cases hflag
        exact hCok id (List.mem_filter.mpr ⟨hidC, by simp [hcm1]⟩)
    have hpu2 := pollUnknownGo_all_ok cfg s tid _ [] [] hall2
    have hres2 : ∃ l2 c2, pollTenantBlocks cfg s prev2 tid = .ok (l2, c2) := by
      unfold pollTenantBlocks
      rw [hblocks]
      dsimp only
      rw [unknown_shape (prev2.Metas tid) (prev2.CompactedMetas tid) L C hL hC
        hdisj, hm2, hc2]
      unfold pollUnknown
      rw [hpu2]
      exact ⟨_, _, rfl⟩
    obtain ⟨l2, c2, hres2⟩ := hres2
    obtain ⟨hcl1, hcc1⟩ := pollTenantBlocks_canon hblocks hL hC hdisj hres1
    obtain ⟨hcl2, hcc2⟩ := pollTenantBlocks_canon hblocks hL hC hdisj hres2
    rw [hm2] at hcl2
    rw [hm2, hc2] at hcc2
    refine ⟨l2, c2, hres2, ?_, ?_⟩
    · refine hcl2.trans (List.Perm.trans ?_ hcl1.symm)
      rw [List.filterMap_congr stableL]
    · refine hcc2.trans (List.Perm.trans ?_ hcc1.symm)
      rw [List.filterMap_congr stableCC, List.filterMap_congr stableCL]

theorem pollTenantBlocks_congr_prev {cfg : PollerConfig} {s : Store}
    {prev prev2 : Blocklist} {tid : String}
    (hm : prev2.Metas tid = prev.Metas tid)
    (hc : prev2.CompactedMetas tid = prev.CompactedMetas tid) :
    pollTenantBlocks cfg s prev2 tid = pollTenantBlocks cfg s prev tid := by
  unfold pollTenantBlocks
  rw [hm, hc]

theorem builderPath_congr_prev {cfg : PollerConfig} {s : Store}
    {prev prev2 : Blocklist} {tid : String}
    (hm : prev2.Metas tid = prev.Metas tid)
    (hc : prev2.CompactedMetas tid = prev.CompactedMetas tid) :
    builderPath cfg s prev2 tid = builderPath cfg s prev tid := by
  unfold builderPath
  rw [pollTenantBlocks_congr_prev hm hc]

theorem pollTenantAndCreateIndex_congr_prev {cfg : PollerConfig}
    {sharder : String → Bool} {s : Store} {prev prev2 : Blocklist}
    {tid : String}
    (hm : prev2.Metas tid = prev.Metas tid)
    (hc : prev2.CompactedMetas tid = prev.CompactedMetas tid) :
    pollTenantAndCreateIndex cfg sharder s prev2 tid =
      pollTenantAndCreateIndex cfg sharder s prev tid := by
  unfold pollTenantAndCreateIndex
  rw [builderPath_congr_prev hm hc]

theorem builderPath_second {cfg : PollerConfig} {s : Store}
    {prev prev2 : Blocklist} {tid : String} {l1 : List BlockMeta}
    {c1 : List CompactedBlockMeta}
    (hwf : StoreWF s tid)
    (hm2 : prev2.Metas tid = l1)
    (hc2 : prev2.CompactedMetas tid = c1)
    (h1 : builderPath cfg s prev tid = .ok (l1, c1)) :
    ∃ l2 c2, builderPath cfg s prev2 tid = .ok (l2, c2) ∧
      l2.Perm l1 ∧ c2.Perm c1 := by
  unfold builderPath at h1 ⊢
  cases hpb1 : pollTenantBlocks cfg s prev tid with
  | error e => rw [hpb1] at h1; cases h1
  | ok q =>
    obtain ⟨bl, cbl⟩ := q
    rw [hpb1] at h1
    dsimp only at h1
    have hbc : bl = l1 ∧ cbl = c1 := by
      split at h1
      · split at h1
        · cases h1
        · injection h1 with h2
          injection h2 with h3 h4
          exact ⟨h3, h4⟩
      · injection h1 with h2
        injection h2 with h3 h4
        exact ⟨h3, h4⟩
    obtain ⟨rfl, rfl⟩ := hbc
    obtain ⟨l2, c2, hres2, hpl, hpc⟩ :=
      pollTenantBlocks_second hwf hpb1 hm2 hc2
    rw [hres2]
    dsimp only
    refine ⟨l2, c2, ?_, hpl, hpc⟩
    by_cases h0 : l2.length = 0 ∧ c2.length = 0
    · have h0l : bl.length = 0 := by rw [← hpl.length_eq]; exact h0.1
      have h0c : cbl.length = 0 := by rw [← hpc.length_eq]; exact h0.2
      rw [if_pos h0]
      rw [if_pos ⟨h0l, h0c⟩] at h1
      have hdel : (deleteTenant cfg s tid).2 = none := by
        cases hd : (deleteTenant cfg s tid).2 with
        | none => rfl
        | some e => rw [hd] at h1; cases h1
      rw [hdel]
    · rw [if_neg h0]

theorem pollTenant_second {cfg : PollerConfig} {sharder : String → Bool}
    {s : Store} {prev prev2 : Blocklist} {tid : String} {l1 : List BlockMeta}
    {c1 : List CompactedBlockMeta}
    (hwf : StoreWF s tid)
    (hm2 : prev2.Metas tid = l1)
    (hc2 : prev2.CompactedMetas tid = c1)
    (h1 : pollTenantAndCreateIndex cfg sharder s prev tid = .ok (l1, c1)) :
    ∃ l2 c2, pollTenantAndCreateIndex cfg sharder s prev2 tid = .ok (l2, c2) ∧
      l2.Perm l1 ∧ c2.Perm c1 := by
  unfold pollTenantAndCreateIndex at h1 ⊢
  by_cases hb : tenantIndexBuilder cfg sharder tid = true
  · rw [if_pos hb] at h1 ⊢
    exact builderPath_second hwf hm2 hc2 h1
  · rw [if_neg hb] at h1 ⊢
    cases hti : tenantIndexPollError cfg s (s.tenantIndex tid) with
    | ok idx =>
      rw [hti] at h1
      dsimp only at h1 ⊢
      injection h1 with h2
      injection h2 with h3 h4
      exact ⟨idx.meta, idx.compactedMeta, rfl,
        by rw [h3], by rw [h4]⟩
    | error e =>
      rw [hti] at h1
      dsimp only at h1 ⊢
      by_cases hpf : cfg.pollFallback = true
      · rw [if_neg (by simp [hpf])] at h1
        rw [if_neg (by simp [hpf])]
        exact builderPath_second hwf hm2 hc2 h1
      · rw [if_pos (by simp [hpf])] at h1
        cases h1

theorem retryPoll_const
    {f : Nat → Except Err (List BlockMeta × List CompactedBlockMeta)}
    {r : Except Err (List BlockMeta × List CompactedBlockMeta)}
    (h : ∀ k, f k = r) : ∀ (n k : Nat), retryPoll f k (n + 1) = r := by
  intro n
  induction n with
  | zero =>
    intro k
    unfold retryPoll
    rw [h k]
    cases r with
    | ok a => rfl
    | error e => rfl
  | succ m ih =>
    intro k
    unfold retryPoll
    rw [h k]
    cases r with
    | ok a => rfl
    | error e => exact ih (k + 1)

theorem retryPoll_zero
    (f : Nat → Except Err (List BlockMeta × List CompactedBlockMeta))
    (k : Nat) : retryPoll f k 0 = .ok ([], []) := rfl

theorem tenantResult_second_ok {cfg : PollerConfig} {sharder : String → Bool}
    {env : Env} {prev prev2 : Blocklist} {T : String} {s0 : Store}
    {l1 : List BlockMeta} {c1 : List CompactedBlockMeta}
    (hconst : ∀ k, env.store T k = s0)
    (hwf : StoreWF s0 T)
    (hm2 : prev2.Metas T = l1)
    (hc2 : prev2.CompactedMetas T = c1)
    (h1 : tenantResult cfg sharder env prev T = .ok (l1, c1)) :
    ∃ l2 c2, tenantResult cfg sharder env prev2 T = .ok (l2, c2) ∧
      l2.Perm l1 ∧ c2.Perm c1 := by
  unfold tenantResult at h1 ⊢
  cases hn : attemptsFor cfg.tolerateConsecutiveErrors with
  | zero =>
    rw [hn, retryPoll_zero] at h1
    injection h1 with h2
    injection h2 with h3 h4
    exact ⟨[], [], retryPoll_zero _ 0, by rw [← h3], by rw [← h4]⟩
  | succ n =>
    rw [hn] at h1
    rw [retryPoll_const
      (fun k => by rw [hconst k]) n 0] at h1
    obtain ⟨l2, c2, h2, hp, hc⟩ := pollTenant_second hwf hm2 hc2 h1
    refine ⟨l2, c2, ?_, hp, hc⟩
    rw [retryPoll_const (fun k => by rw [hconst k]) n 0]
    exact h2

theorem tenantResult_second_err {cfg : PollerConfig} {sharder : String → Bool}
    {env : Env} {prev prev2 : Blocklist} {T : String} {s0 : Store} {e : Err}
    (hconst : ∀ k, env.store T k = s0)
    (hm2 : prev2.Metas T = prev.Metas T)
    (hc2 : prev2.CompactedMetas T = prev.CompactedMetas T)
    (h1 : tenantResult cfg sharder env prev T = .error e) :
    tenantResult cfg sharder env prev2 T = .error e := by
  unfold tenantResult at h1 ⊢
  cases hn : attemptsFor cfg.tolerateConsecutiveErrors with
  | zero =>
    rw [hn, retryPoll_zero] at h1
    cases h1
  | succ n =>
    rw [hn] at h1
    rw [retryPoll_const (fun k => by rw [hconst k]) n 0] at h1
    rw [retryPoll_const (fun k => by rw [hconst k]) n 0]
    rw [pollTenantAndCreateIndex_congr_prev hm2 hc2]
    exact h1

theorem foldNB_find_okwrite {cfg : PollerConfig} {sharder : String → Bool}
    {env : Env} {previous : Blocklist} {T : String} {l : List BlockMeta}
    {c : List CompactedBlockMeta}
    (hok : tenantResult cfg sharder env previous T = .ok (l, c))
    (hne : l.length > 0 ∨ c.length > 0) (ts : List String)
    (st : PerTenant × PerTenantCompacted × Int)
    (hstart : T ∈ ts ∨ (alFind st.1 T = some l ∧ alFind st.2.1 T = some c)) :
    alFind (ts.foldl (doStepNB cfg sharder env previous) st).1 T = some l ∧
    alFind (ts.foldl (doStepNB cfg sharder env previous) st).2.1 T = some c := by
  induction ts generalizing st with
  | nil =>
    rcases hstart with h | h
    · cases h
    · exact h
  | cons t rest ih =>
    rw [List.foldl_cons]
    by_cases hTt : t = T
    · subst hTt
      refine ih _ (Or.inr ?_)
      unfold doStepNB
      rw [hok]
      dsimp only
      rw [if_pos hne]
      constructor
      · rw [alFind_upsert, if_pos rfl]
      · rw [alFind_upsert, if_pos rfl]
    · rcases hstart with h | h
      · rcases List.mem_cons.mp h with h1 | h1
        · exact absurd h1.symm hTt
        · exact ih _ (Or.inl h1)
      · refine ih _ (Or.inr ?_)
        have hp := @doStepNB_preserve cfg sharder env previous st t T hTt
        rw [hp.1, hp.2]
        exact h

theorem foldNB_find_notmem {cfg : PollerConfig} {sharder : String → Bool}
    {env : Env} {previous : Blocklist} {T : String} (ts : List String)
    (st : PerTenant × PerTenantCompacted × Int) (hT : ¬ T ∈ ts) :
    alFind (ts.foldl (doStepNB cfg sharder env previous) st).1 T =
      alFind st.1 T ∧
    alFind (ts.foldl (doStepNB cfg sharder env previous) st).2.1 T =
      alFind st.2.1 T := by
  induction ts generalizing st with
  | nil => exact ⟨rfl, rfl⟩
  | cons t rest ih =>
    rw [List.foldl_cons]
    have hTt : ¬ t = T := fun hc => hT (hc ▸ List.mem_cons_self _ _)
    have hp := @doStepNB_preserve cfg sharder env previous st t T hTt
    have hr := ih (doStepNB cfg sharder env previous st t)
      (fun hc => hT (List.mem_cons_of_mem _ hc))
    rw [hr.1, hr.2, hp.1, hp.2]
    exact ⟨rfl, rfl⟩

theorem alFind_eq_find? {β : Type} (m : List (String × β)) (k : String) :
    alFind m k = (m.find? (fun p => p.1 = k)).map (fun p => p.2) := by
  induction m with
  | nil => rfl
  | cons q rest ih =>
    by_cases h : q.1 = k
    · rw [List.find?_cons_of_pos _ (by simp [h])]
      simp [alFind, h]
    · rw [List.find?_cons_of_neg _ (by simp [h])]
      simp [alFind, h, ih]

theorem applyPollResults_Metas (bl : PerTenant) (cbl : PerTenantCompacted)
    (T : String) : (applyPollResults bl cbl).Metas T = alGetD bl T := by
  unfold applyPollResults Blocklist.Metas alGet alGetD
  rw [alFind_eq_find?]
  cases bl.find? (fun p => p.1 = T) <;> rfl

theorem applyPollResults_CompactedMetas (bl : PerTenant)
    (cbl : PerTenantCompacted) (T : String) :
    (applyPollResults bl cbl).CompactedMetas T = alGetD cbl T := by
  unfold applyPollResults Blocklist.CompactedMetas alGet alGetD
  rw [alFind_eq_find?]
  cases cbl.find? (fun p => p.1 = T) <;> rfl

/-- C5 (amended): running `Do` twice against an unchanged well-formed store,
the second run receiving the first run's output as previous list, yields for
every tenant live and compacted lists that are permutations of the first
run's (the counterexample shows exact order equality fails). -/
theorem c5_second_run_permutation (cfg : PollerConfig)
    (sharder : String → Bool) (env : Env) (previous : Blocklist)
    (s0 : String → Store) (bl1 : PerTenant) (cbl1 : PerTenantCompacted)
    (bl2 : PerTenant) (cbl2 : PerTenantCompacted)
    (hconst : ∀ t k, env.store t k = s0 t)
    (hwf : ∀ t, StoreWF (s0 t) t)
    (h1 : Do cfg sharder env previous = .ok (bl1, cbl1))
    (h2 : Do cfg sharder env (applyPollResults bl1 cbl1) = .ok (bl2, cbl2)) :
    ∀ T, (alGetD bl2 T).Perm (alGetD bl1 T) ∧
      (alGetD cbl2 T).Perm (alGetD cbl1 T) := by
  unfold Do at h1 h2
  cases hts : env.tenants with
  | error e => rw [hts] at h1; cases h1
  | ok ts =>
    rw [hts] at h1 h2
    dsimp only at h1 h2
    split at h1
    · cases h1
    · rename_i hrem1
      injection h1 with hp1
      injection hp1 with hbl1 hcbl1
      split at h2
      · cases h2
      · rename_i hrem2
        injection h2 with hp2
        injection hp2 with hbl2 hcbl2
        have hNB1 := @foldl_doStep_eq_NB cfg sharder env previous ts
          ([], [], cfg.tolerateTenantFailures) (by omega)
        have hNB2 := @foldl_doStep_eq_NB cfg sharder env
          (applyPollResults bl1 cbl1) ts
          ([], [], cfg.tolerateTenantFailures) (by omega)
        intro T
        by_cases hT : T ∈ ts
        · cases hr1 : tenantResult cfg sharder env previous T with
          | error e =>
            have htf : tenantFails cfg sharder env previous T = true := by
              unfold tenantFails
              rw [hr1]
            have hent1 := foldNB_find_fail htf ts
              ([], [], cfg.tolerateTenantFailures) (Or.inl hT)
            have hf1 : alFind bl1 T = some (previous.Metas T) := by
              rw [← hbl1, hNB1]
              exact hent1.1
            have hf1c : alFind cbl1 T = some (previous.CompactedMetas T) := by
              rw [← hcbl1, hNB1]
              exact hent1.2
            have hm2 : (applyPollResults bl1 cbl1).Metas T = previous.Metas T := by
              rw [applyPollResults_Metas]
              unfold alGetD
              rw [hf1]
              rfl
            have hc2 : (applyPollResults bl1 cbl1).CompactedMetas T =
                previous.CompactedMetas T := by
              rw [applyPollResults_CompactedMetas]
              unfold alGetD
              rw [hf1c]
              rfl
            have hr2 := tenantResult_second_err (hconst T) hm2 hc2 hr1
            have htf2 : tenantFails cfg sharder env
                (applyPollResults bl1 cbl1) T = true := by
              unfold tenantFails
              rw [hr2]
            have hent2 := foldNB_find_fail htf2 ts
              ([], [], cfg.tolerateTenantFailures) (Or.inl hT)
            have hf2 : alFind bl2 T =
                some ((applyPollResults bl1 cbl1).Metas T) := by
              rw [← hbl2, hNB2]
              exact hent2.1
            have hf2c : alFind cbl2 T =
                some ((applyPollResults bl1 cbl1).CompactedMetas T) := by
              rw [← hcbl2, hNB2]
              exact hent2.2
            constructor
            · unfold alGetD
              rw [hf2, hf1, hm2]
            · unfold alGetD
              rw [hf2c, hf1c, hc2]
          | ok p =>
            obtain ⟨l1T, c1T⟩ := p
            by_cases hne : l1T.length > 0 ∨ c1T.length > 0
            · have hent1 := foldNB_find_okwrite hr1 hne ts
                ([], [], cfg.tolerateTenantFailures) (Or.inl hT)
              have hf1 : alFind bl1 T = some l1T := by
                rw [← hbl1, hNB1]
                exact hent1.1
              have hf1c : alFind cbl1 T = some c1T := by
                rw [← hcbl1, hNB1]
                exact hent1.2
              have hm2 : (applyPollResults bl1 cbl1).Metas T = l1T := by
                rw [applyPollResults_Metas]
                unfold alGetD
                rw [hf1]
                rfl
              have hc2 : (applyPollResults bl1 cbl1).CompactedMetas T = c1T := by
                rw [applyPollResults_CompactedMetas]
                unfold alGetD
                rw [hf1c]
                rfl
              obtain ⟨l2T, c2T, hr2, hpl, hpc⟩ :=
                tenantResult_second_ok (hconst T) (hwf T) hm2 hc2 hr1
              have hne2 : l2T.length > 0 ∨ c2T.length > 0 := by
                rw [hpl.length_eq, hpc.length_eq]
                exact hne
              have hent2 := foldNB_find_okwrite hr2 hne2 ts
                ([], [], cfg.tolerateTenantFailures) (Or.inl hT)
              have hf2 : alFind bl2 T = some l2T := by
                rw [← hbl2, hNB2]
                exact hent2.1
              have hf2c : alFind cbl2 T = some c2T := by
                rw [← hcbl2, hNB2]
                exact hent2.2
              constructor
              · unfold alGetD
                rw [hf2, hf1]
                exact hpl
              · unfold alGetD
                rw [hf2c, hf1c]
                exact hpc
            · have hno := not_or.mp hne
              have hl0 : l1T = [] :=
                List.length_eq_zero.mp (Nat.eq_zero_of_not_pos hno.1)
              have hc0 : c1T = [] :=
                List.length_eq_zero.mp (Nat.eq_zero_of_not_pos hno.2)
              subst hl0
              subst hc0
              have hent1 := foldNB_find_nowrite hr1 ts
                ([], [], cfg.tolerateTenantFailures)
              have hf1 : alFind bl1 T = none := by
                rw [← hbl1, hNB1]
                exact hent1.1
              have hf1c : alFind cbl1 T = none := by
                rw [← hcbl1, hNB1]
                exact hent1.2
              have hm2 : (applyPollResults bl1 cbl1).Metas T = [] := by
                rw [applyPollResults_Metas]
                unfold alGetD
                rw [hf1]
                rfl
              have hc2 : (applyPollResults bl1 cbl1).CompactedMetas T = [] := by
                rw [applyPollResults_CompactedMetas]
                unfold alGetD
                rw [hf1c]
                rfl
              obtain ⟨l2T, c2T, hr2, hpl, hpc⟩ :=
                tenantResult_second_ok (hconst T) (hwf T) hm2 hc2 hr1
              have hl2 : l2T = [] := List.Perm.eq_nil hpl
              have hc2T : c2T = [] := List.Perm.eq_nil hpc
              subst hl2
              subst hc2T
              have hent2 := foldNB_find_nowrite hr2 ts
                ([], [], cfg.tolerateTenantFailures)
              have hf2 : alFind bl2 T = none := by
                rw [← hbl2, hNB2]
                exact hent2.1
              have hf2c : alFind cbl2 T = none := by
                rw [← hcbl2, hNB2]
                exact hent2.2
              constructor
              · unfold alGetD
                rw [hf2, hf1]
              · unfold alGetD
                rw [hf2c, hf1c]
        · have e1 := @foldNB_find_notmem cfg sharder env previous T ts
            ([], [], cfg.tolerateTenantFailures) hT
          have e2 := @foldNB_find_notmem cfg sharder env
            (applyPollResults bl1 cbl1) T ts
            ([], [], cfg.tolerateTenantFailures) hT
          have hf1 : alFind bl1 T = none := by
            rw [← hbl1, hNB1]
            exact e1.1
          have hf1c : alFind cbl1 T = none := by
            rw [← hcbl1, hNB1]
            exact e1.2
          have hf2 : alFind bl2 T = none := by
            rw [← hbl2, hNB2]
            exact e2.1
          have hf2c : alFind cbl2 T = none := by
            rw [← hcbl2, hNB2]
            exact e2.2
          constructor
          · unfold alGetD
            rw [hf2, hf1]
          · unfold alGetD
            rw [hf2c, hf1c]

/-- C5 counterexample: on an unchanged store listing blocks 1 and 2 with the
previous list knowing only block 2, the first run outputs the carried meta
before the newly resolved one, while the second run outputs them in listing
order: the two runs' live lists differ in element order. -/
theorem c5_counterexample :
    Do wCfg wSharderAll wEnvTwo wPrevB =
      .ok ([("t", [wMetaB, wMetaA])], [("t", [])]) ∧
    Do wCfg wSharderAll wEnvTwo
        (applyPollResults [("t", [wMetaB, wMetaA])] [("t", [])]) =
      .ok ([("t", [wMetaA, wMetaB])], [("t", [])]) ∧
    ([wMetaA, wMetaB] : List BlockMeta) ≠ [wMetaB, wMetaA] :=
  ⟨rfl, rfl, by decide⟩

/-- C5 witness: both runs on the unchanged two-block store produce entries
that are permutations of each other. -/
theorem c5_witness :
    (alGetD [("t", [wMetaA, wMetaB])] "t").Perm
        (alGetD [("t", [wMetaB, wMetaA])] "t") ∧
      (alGetD ([("t", [])] : PerTenantCompacted) "t").Perm
        (alGetD ([("t", [])] : PerTenantCompacted) "t") := by
  refine c5_second_run_permutation wCfg wSharderAll wEnvTwo wPrevB
    (fun _ => wStoreTwo) [("t", [wMetaB, wMetaA])] [("t", [])]
    [("t", [wMetaA, wMetaB])] [("t", [])] (fun t k => rfl) ?_ rfl rfl "t"
  intro t
  refine ⟨?_, ?_, ?_, ?_⟩
  · intro L C h
    injection h with h2
    injection h2 with hL hC
    subst hL
    subst hC
    refine ⟨by decide, by decide, by decide⟩
  · intro id m h
    injection h with h2
    rw [← h2]
  · intro id cm h
    exact RRes.noConfusion h
  · intro idx h
    exact RRes.noConfusion h
